import Mathlib

/-!
# rewansh: WAN failover manager

A shallow embedding of the link health state machine (`wan.go`), of the
failover decision engine (`manager.go`), of the validation of the
configuration (`config.go`) and of `wsclient.close` (`wsclient.go`).

Modelling conventions.

* A `*wanWrap` pointer into `wm.wans` is the position of the element in the
  slice; the getters return that position together with the element it
  points at.
* The health state of every link is read from a snapshot held in the manager
  state: one iteration of the decision loop sees one consistent set of link
  states.
* Go `int` priorities are `Int`.
* The external process started by `execute` is the Boolean `procOk`
  (`true`: `c.Output()` returned no error).  The index expression `cmd[0]`
  on an empty argument vector is a run-time panic, kept as its own outcome.
* A nil pointer is `none`: a nil entry of `Servers`, a nil connection handle.
  Dereferencing it is a run-time panic, and a function that can panic returns
  an `Option` whose `none` is the panic.
* Logging has no effect on control flow and is left out.
-/

namespace Rewansh

/-! ## wan.go -/

/-- Connectivity events sent by the heartbeat connection (`connEventType`). -/
inductive connEventType where
  | eventConnDown
  | eventConnUp
  deriving DecidableEq, Repr

/-- Health state of a link (`wanState`). -/
inductive wanState where
  | stateInit
  | stateDead
  | stateAlive
  | stateStable
  deriving DecidableEq, Repr

/-- Lifecycle event kinds sent by a link to the manager (`wanEventType`). -/
inductive wanEventType where
  | eventWanDown
  | eventWanUp
  | eventWanStable
  deriving DecidableEq, Repr

/-- Lifecycle event (`wanEvent`). -/
structure wanEvent where
  wanPri : Int
  event : wanEventType
  deriving DecidableEq, Repr

/-- One link (`wan`): its priority and the state held by its `stateWrap`. -/
structure wan where
  pri : Int
  state : wanState
  deriving DecidableEq, Repr

/-- The link built by `newWan`: the zero value of `wanState` is `stateInit`. -/
def newWan (pri : Int) : wan :=
  { pri := pri, state := wanState.stateInit }

/-- Test `stateWrap.is` on the state of a link. -/
def wan.is (w : wan) (s : wanState) : Bool :=
  decide (w.state = s)

/-- Assignment `stateWrap.set` on the state of a link. -/
def wan.set (w : wan) (s : wanState) : wan :=
  { w with state := s }

/-- Method `isAlive`. -/
def wan.isAlive (w : wan) : Bool :=
  w.is wanState.stateAlive

/-- Method `isStable`. -/
def wan.isStable (w : wan) : Bool :=
  w.is wanState.stateStable

/-- What one iteration of the `select` in `wan.monitor` can receive: a
connectivity event from `w.ws.events`, or the expiry of the `minUptime`
timer armed by `time.After`. -/
inductive monitorInput where
  | conn (ev : connEventType)
  | minUptimeElapsed
  deriving DecidableEq, Repr

/-- One iteration of the loop of `wan.monitor`: the link afterwards and the
lifecycle event sent on `wmanCh`, if any. -/
def monitor (w : wan) : monitorInput → wan × Option wanEvent
  | monitorInput.conn connEventType.eventConnDown =>
    if !w.is wanState.stateDead then
      (w.set wanState.stateDead, some { wanPri := w.pri, event := wanEventType.eventWanDown })
    else
      (w, none)
  | monitorInput.conn connEventType.eventConnUp =>
    (w.set wanState.stateAlive, some { wanPri := w.pri, event := wanEventType.eventWanUp })
  | monitorInput.minUptimeElapsed =>
    if w.is wanState.stateAlive then
      (w.set wanState.stateStable, some { wanPri := w.pri, event := wanEventType.eventWanStable })
    else
      (w, none)

/-- One record of a monitor run: the state before the iteration, the input
it received, the state after it and the event it sent. -/
structure monitorRecord where
  before : wanState
  input : monitorInput
  after : wanState
  emitted : Option wanEventType
  deriving DecidableEq, Repr

/-- The loop of `wan.monitor` over a finite sequence of inputs, recording
every iteration. -/
def monitorRun (w : wan) : List monitorInput → List monitorRecord
  | [] => []
  | i :: is =>
    let r := monitor w i
    { before := w.state, input := i, after := r.1.state,
      emitted := r.2.map (fun e => e.event) } :: monitorRun r.1 is

/-! ## manager.go -/

/-- A managed link (`wanWrap`). -/
structure wanWrap where
  wan : wan
  active : Bool
  command : List String
  deriving DecidableEq, Repr

/-- The manager (`wanManager`), reduced to the slice of managed links. -/
structure wanManager where
  wans : List wanWrap
  deriving DecidableEq, Repr

/-- The loop `for _, w := range wm.wans { if p(w) { return w } }; return nil`
shared by the three getters: position and element of the first match. -/
def firstWan (p : wanWrap → Bool) : List wanWrap → Option (Nat × wanWrap)
  | [] => none
  | w :: ws =>
    if p w then some (0, w)
    else (firstWan p ws).map (fun r => (r.1 + 1, r.2))

/-- Method `getActiveWan`. -/
def getActiveWan (wm : wanManager) : Option (Nat × wanWrap) :=
  firstWan (fun w => w.active) wm.wans

/-- Method `getActiveWanPriority`. -/
def getActiveWanPriority (wm : wanManager) : Int :=
  match getActiveWan wm with
  | some (_, w) => w.wan.pri
  | none => (wm.wans.length : Int) + 1

/-- Method `getStableIdleWan`. -/
def getStableIdleWan (wm : wanManager) : Option (Nat × wanWrap) :=
  firstWan (fun w => !w.active && w.wan.isStable) wm.wans

/-- Method `getAliveIdleWan`. -/
def getAliveIdleWan (wm : wanManager) : Option (Nat × wanWrap) :=
  firstWan (fun w => !w.active && w.wan.isAlive) wm.wans

/-- The write `p.active = b` through the pointer at position `i`. -/
def setActive : List wanWrap → Nat → Bool → List wanWrap
  | [], _, _ => []
  | w :: ws, 0, b => { w with active := b } :: ws
  | w :: ws, i + 1, b => w :: setActive ws i b

/-- Method `execute`: `none` is the panic of `cmd[0]` on an empty argument
vector, otherwise the result is whether the process ran without error. -/
def execute (cmd : List String) (procOk : Bool) : Option Bool :=
  match cmd with
  | [] => none
  | _ :: _ => some procOk

/-- How a call of `switchActiveWan` ended. -/
inductive switchStatus where
  | switched
  | errNoCandidate
  | errCommandFailed
  | panicked
  deriving DecidableEq, Repr

/-- Everything observable of a call of `switchActiveWan`: the manager
afterwards, the replacement it selected (the local `to`), the command it ran and how it
ended. -/
structure switchOutcome where
  wm : wanManager
  selected : Option (Nat × wanWrap)
  executed : Option (List String)
  status : switchStatus
  deriving DecidableEq, Repr

/-- First step of `switchActiveWan`: `from := wm.getActiveWan()` and, when it
is not nil, `from.active = false`. -/
def deactivate (wm : wanManager) : wanManager :=
  match getActiveWan wm with
  | some (i, _) => { wans := setActive wm.wans i false }
  | none => wm

/-- Second step of `switchActiveWan`: `to := wm.getStableIdleWan()`, replaced
by `wm.getAliveIdleWan()` when nil. -/
def replacement (wm : wanManager) : Option (Nat × wanWrap) :=
  match getStableIdleWan wm with
  | some r => some r
  | none => getAliveIdleWan wm

/-- Method `switchActiveWan`. -/
def switchActiveWan (wm : wanManager) (procOk : Bool) : switchOutcome :=
  let wm1 := deactivate wm
  match replacement wm1 with
  | none => { wm := wm1, selected := none, executed := none, status := switchStatus.errNoCandidate }
  | some (i, w) =>
    match execute w.command procOk with
    | none => { wm := wm1, selected := some (i, w), executed := none, status := switchStatus.panicked }
    | some false =>
      { wm := wm1, selected := some (i, w), executed := some w.command,
        status := switchStatus.errCommandFailed }
    | some true =>
      { wm := { wans := setActive wm1.wans i true }, selected := some (i, w),
        executed := some w.command, status := switchStatus.switched }

/-- Everything observable of one iteration of `listen`: the manager afterwards
and the outcome of the call of `switchActiveWan`, when one was made. -/
structure listenOutcome where
  wm : wanManager
  call : Option switchOutcome
  deriving DecidableEq, Repr

/-- The iteration made no call of `switchActiveWan`. -/
def listenOutcome.skip (wm : wanManager) : listenOutcome :=
  { wm := wm, call := none }

/-- The iteration called `switchActiveWan`. -/
def listenOutcome.switch (wm : wanManager) (procOk : Bool) : listenOutcome :=
  let o := switchActiveWan wm procOk
  { wm := o.wm, call := some o }

/-- One iteration of the loop of `wanManager.listen` on the event `e`
received from the channel. -/
def listen (wm : wanManager) (e : wanEvent) (procOk : Bool) : listenOutcome :=
  match e.event with
  | wanEventType.eventWanDown =>
    let activePri := getActiveWanPriority wm
    if e.wanPri = activePri then
      listenOutcome.switch wm procOk
    else
      match getStableIdleWan wm with
      | some (_, stable) =>
        if stable.wan.pri < activePri then
          match getAliveIdleWan wm with
          | some (_, alive) =>
            if alive.wan.pri < stable.wan.pri then listenOutcome.skip wm
            else listenOutcome.switch wm procOk
          | none => listenOutcome.switch wm procOk
        else listenOutcome.skip wm
      | none => listenOutcome.skip wm
  | wanEventType.eventWanUp =>
    match getActiveWan wm with
    | none => listenOutcome.switch wm procOk
    | some _ => listenOutcome.skip wm
  | wanEventType.eventWanStable =>
    if e.wanPri < getActiveWanPriority wm then
      match getAliveIdleWan wm with
      | some (_, alive) =>
        if alive.wan.pri < e.wanPri then listenOutcome.skip wm
        else listenOutcome.switch wm procOk
      | none => listenOutcome.switch wm procOk
    else listenOutcome.skip wm

/-! ## Links feeding the decision loop -/

/-- The monitor goroutine of the link at position `q` (started by `run`)
performs one iteration on the input `inp`: the links afterwards and the
lifecycle event it sends on the shared channel, if any. -/
def monitorAt : List wanWrap → Nat → monitorInput → List wanWrap × Option wanEvent
  | [], _, _ => ([], none)
  | w :: ws, 0, inp =>
    let r := monitor w.wan inp
    ({ w with wan := r.1 } :: ws, r.2)
  | w :: ws, q + 1, inp =>
    let r := monitorAt ws q inp
    (w :: r.1, r.2)

/-- The link at position `q` receives `inp`, and the lifecycle event its
monitor sends, if any, is received and handled by one iteration of `listen`. -/
def linkInput (wm : wanManager) (q : Nat) (inp : monitorInput) (procOk : Bool) :
    listenOutcome :=
  match monitorAt wm.wans q inp with
  | (ws, some e) => listen { wans := ws } e procOk
  | (ws, none) => listenOutcome.skip { wans := ws }

/-! ## Predicates on manager states -/

/-- Number of links flagged active. -/
def activeCount (wm : wanManager) : Nat :=
  wm.wans.countP (fun w => w.active)

/-- Priorities as `newWanManager` assigns them: the link at position `i`
(0-based) of the slice has priority `i + 1`, so the slice is in strictly
ascending priority order. -/
def priorityOrder (wm : wanManager) : Prop :=
  ∀ (i : Nat) (w : wanWrap), wm.wans[i]? = some w → w.wan.pri = (i : Int) + 1

/-- Executable check of `priorityOrder`: the priorities of the list are
`k`, `k + 1`, ... in this order. -/
def prioritiesFrom (k : Int) : List wanWrap → Bool
  | [] => true
  | w :: ws => decide (w.wan.pri = k) && prioritiesFrom (k + 1) ws

/-- The slice is in strictly ascending priority order: a link placed before
another has the numerically lower, more preferred, priority. -/
def ascending (wm : wanManager) : Prop :=
  ∀ (i j : Nat) (u v : wanWrap), i < j → wm.wans[i]? = some u → wm.wans[j]? = some v →
    u.wan.pri < v.wan.pri

/-- The links flagged active are exactly the link at position `s`. -/
def onlyActive (wm : wanManager) (s : Nat) : Prop :=
  ∀ (j : Nat) (v : wanWrap), wm.wans[j]? = some v → (v.active = true ↔ j = s)

/-! ## config.go -/

/-- One configured uplink (`server`). -/
structure server where
  WsURL : String
  IsActive : Bool
  Command : List String
  deriving DecidableEq, Repr

/-- Heartbeat periods (`ping`). -/
structure ping where
  Active : Nat
  Idle : Nat
  PongWait : Nat
  deriving DecidableEq, Repr

/-- The configuration document (`config`). `Servers` is a slice of pointers,
`[]*server`: an entry is `some s` for a pointer to `s` and `none` for a nil
pointer, which is what a null item of the list in the document decodes to. -/
structure config where
  Ping : ping
  MinUptime : Nat
  Servers : List (Option server)
  deriving DecidableEq, Repr

/-- The errors built by `config.validate`, by format string:
"failover requires at least 2 wans", "command is not defined for wan #%d"
with its argument, and "active wan is not defined". -/
inductive validateError where
  | tooFewWans
  | commandNotDefined (n : Nat)
  | activeNotDefined
  deriving DecidableEq, Repr

/-- The loop `for i, s := range c.Servers` of `config.validate`, from index
`i` with the current value of `activeDefined`: the error it returns, or the
final value of `activeDefined`. On a nil entry `s.Command` is a nil pointer
dereference: `none` is that panic. -/
def validateLoop : List (Option server) → Nat → Bool → Option (Except validateError Bool)
  | [], _, activeDefined => some (Except.ok activeDefined)
  | none :: _, _, _ => none
  | some s :: ss, i, activeDefined =>
    if s.Command.length = 0 then
      some (Except.error (validateError.commandNotDefined (i + 1)))
    else
      validateLoop ss (i + 1) (if s.IsActive then true else activeDefined)

/-- Method `config.validate`: `some (Except.ok ())` is the nil error,
`some (Except.error e)` a returned error, `none` a panic. -/
def config.validate (c : config) : Option (Except validateError Unit) :=
  if c.Servers.length < 2 then
    some (Except.error validateError.tooFewWans)
  else
    match validateLoop c.Servers 0 false with
    | none => none
    | some (Except.error e) => some (Except.error e)
    | some (Except.ok activeDefined) =>
      if activeDefined = false then some (Except.error validateError.activeNotDefined)
      else some (Except.ok ())

/-- The loop `for i, s := range c.Servers` of `newWanManager`, from index
`i`: the links appended to `wman.wans`. On a nil entry `s.WsURL` is a nil
pointer dereference: `none` is that panic. -/
def newWanManagerLoop : List (Option server) → Nat → Option (List wanWrap)
  | [], _ => some []
  | none :: _, _ => none
  | some s :: ss, i =>
    (newWanManagerLoop ss (i + 1)).map (fun ws =>
      { wan := newWan ((i : Int) + 1), active := s.IsActive, command := s.Command } :: ws)

/-- Function `newWanManager`; `none` is a panic. In `run` it is called only
after `loadConfig`, hence `validate`, returned no error. -/
def newWanManager (c : config) : Option wanManager :=
  (newWanManagerLoop c.Servers 0).map (fun ws => { wans := ws })

/-! ## wsclient.go -/

/-- The heartbeat connection (`wsclient`): its url and the transport handle
`conn`, `none` for nil, `some h` for the connection `h`. -/
structure wsclient where
  url : String
  conn : Option Nat
  deriving DecidableEq, Repr

/-- A completed call of `wsclient.close`: the client afterwards and the
events it sent on `ws.events`. -/
structure closeOutcome where
  ws : wsclient
  sent : List connEventType
  deriving DecidableEq, Repr

/-- Method `wsclient.close`: `ws.conn.Close()`, `ws.conn = nil`,
`ws.events <- eventConnDown`, with no test of `ws.conn`. The first statement
calls the method `Close` of the websocket library on the handle; on a nil
handle that method dereferences its receiver, a nil pointer dereference, so
the call panics before the assignment and before the send: `none` is that
panic. -/
def wsclient.close (ws : wsclient) : Option closeOutcome :=
  match ws.conn with
  | some _ =>
    some { ws := { ws with conn := none }, sent := [connEventType.eventConnDown] }
  | none => none

/-! ## Manager states used as examples -/

/-- A managed link with priority `pri`, health state `st` and flag `act`,
whose activation command is `["ip", "route", n]` for `n` the priority. -/
def mkWan (pri : Int) (st : wanState) (act : Bool) : wanWrap :=
  { wan := { pri := pri, state := st }, active := act,
    command := ["ip", "route", toString pri] }

/-- Three links, none active: links 1 and 2 are Stable, link 3 is still in
its initial state. Reached from "link 3 seeded active" when links 2 and 1 come
up, link 1 becomes Stable, and the command of the switch to link 1 fails. -/
def twoStableNoActive : wanManager :=
  { wans := [mkWan 1 wanState.stateStable false, mkWan 2 wanState.stateStable false,
      mkWan 3 wanState.stateInit false] }

/-- Three links, link 2 active: link 1 has become Stable, link 3 has not
come up yet. -/
def link1StableLink2Active : wanManager :=
  { wans := [mkWan 1 wanState.stateStable false, mkWan 2 wanState.stateStable true,
      mkWan 3 wanState.stateInit false] }

/-- Three links, link 3 active: link 2 is idle and Stable, link 1 has just
gone down. -/
def link1DeadLink2StableLink3Active : wanManager :=
  { wans := [mkWan 1 wanState.stateDead false, mkWan 2 wanState.stateStable false,
      mkWan 3 wanState.stateStable true] }

/-- Three links, link 2 active: link 1 is Alive and not yet Stable, link 3
has become Stable. -/
def link1AliveLink2ActiveLink3Stable : wanManager :=
  { wans := [mkWan 1 wanState.stateAlive false, mkWan 2 wanState.stateStable true,
      mkWan 3 wanState.stateStable false] }

/-- Three links, link 2 active: link 1 has not come up, link 3 has just gone
down. -/
def link2ActiveLink3Dead : wanManager :=
  { wans := [mkWan 1 wanState.stateInit false, mkWan 2 wanState.stateStable true,
      mkWan 3 wanState.stateDead false] }

/-- Three links, link 2 active and just gone down, links 1 and 3 not up. -/
def link2ActiveDown : wanManager :=
  { wans := [mkWan 1 wanState.stateInit false, mkWan 2 wanState.stateDead true,
      mkWan 3 wanState.stateInit false] }

/-- Three links, link 2 active and Stable: link 1 is down, link 3 is idle
and Stable. The active link is the best usable one. -/
def link2ActiveLink3Stable : wanManager :=
  { wans := [mkWan 1 wanState.stateDead false, mkWan 2 wanState.stateStable true,
      mkWan 3 wanState.stateStable false] }

/-- Three links, link 2 active and down: link 1 is Alive and not yet Stable,
link 3 is idle and Stable. -/
def link1AliveLink2DownLink3Stable : wanManager :=
  { wans := [mkWan 1 wanState.stateAlive false, mkWan 2 wanState.stateDead true,
      mkWan 3 wanState.stateStable false] }

/-- Inputs of one link: two failed connection attempts, a connection, the
stability timer, then a disconnection. -/
def flappingInputs : List monitorInput :=
  [monitorInput.conn connEventType.eventConnDown, monitorInput.conn connEventType.eventConnDown,
    monitorInput.conn connEventType.eventConnUp, monitorInput.minUptimeElapsed,
    monitorInput.conn connEventType.eventConnDown]

/-- Inputs of one link: a connection, the stability timer, then a
disconnection. -/
def upStableDownInputs : List monitorInput :=
  [monitorInput.conn connEventType.eventConnUp, monitorInput.minUptimeElapsed,
    monitorInput.conn connEventType.eventConnDown]

/-- Inputs of one link: a connection, the stability timer twice, a second
connection and the stability timer again. -/
def upStableUpStableInputs : List monitorInput :=
  [monitorInput.conn connEventType.eventConnUp, monitorInput.minUptimeElapsed,
    monitorInput.minUptimeElapsed, monitorInput.conn connEventType.eventConnUp,
    monitorInput.minUptimeElapsed]

/-- A configured uplink with address `url` and seed flag `act`, whose command
is `["ip", "route", url]`. -/
def mkServer (url : String) (act : Bool) : server :=
  { WsURL := url, IsActive := act, Command := ["ip", "route", url] }

/-- A configuration with the default periods and the given uplinks, every
entry present. -/
def mkConfig (servers : List server) : config :=
  { Ping := { Active := 10, Idle := 60, PongWait := 5 }, MinUptime := 900,
    Servers := servers.map some }

/-- Two uplinks, both seeded active. -/
def twoSeededActiveServers : List server :=
  [mkServer "fiber:8080" true, mkServer "lte:8080" true]

/-- The configuration of two uplinks, both seeded active. -/
def twoSeededActive : config :=
  mkConfig twoSeededActiveServers

/-- Three uplinks, the second seeded active. -/
def secondSeededActiveServers : List server :=
  [mkServer "fiber:8080" false, mkServer "lte:8080" true, mkServer "sat:8080" false]

/-- The configuration of three uplinks, the second seeded active. -/
def secondSeededActive : config :=
  mkConfig secondSeededActiveServers

/-- Three uplinks, the second seeded active, the second and third without a
command. -/
def missingCommandsServers : List server :=
  [mkServer "fiber:8080" false,
    { WsURL := "lte:8080", IsActive := true, Command := [] },
    { WsURL := "sat:8080", IsActive := false, Command := [] }]

/-- The configuration of three uplinks of which two have no command. -/
def missingCommands : config :=
  mkConfig missingCommandsServers

/-- The configuration decoded from a document whose list of servers has a
null first item and a second item without a command. -/
def nullEntryConfig : config :=
  { Ping := { Active := 10, Idle := 60, PongWait := 5 }, MinUptime := 900,
    Servers := [none, some { WsURL := "lte:8080", IsActive := true, Command := [] }] }

/-- A client with no connection. -/
def disconnectedClient : wsclient :=
  { url := "ws://fiber:8080/ws", conn := none }

/-- A client holding the connection `7`. -/
def connectedClient : wsclient :=
  { url := "ws://fiber:8080/ws", conn := some 7 }

/-! ## The scan `firstWan` and the write `setActive` -/

theorem firstWan_some {p : wanWrap → Bool} :
    ∀ {l : List wanWrap} {i : Nat} {w : wanWrap}, firstWan p l = some (i, w) →
      l[i]? = some w ∧ p w = true ∧ ∀ (j : Nat) (v : wanWrap), j < i → l[j]? = some v → p v = false := by
  intro l
  induction l with
  | nil => intro i w h; simp [firstWan] at h
  | cons x xs ih =>
    intro i w h
    unfold firstWan at h
    by_cases hx : p x = true
    · simp only [hx, if_true, Option.some.injEq, Prod.mk.injEq] at h
      obtain ⟨rfl, rfl⟩ := h
      refine ⟨by simp, hx, ?_⟩
      intro j v hj
      omega
    · simp only [hx, Bool.false_eq_true, if_false] at h
      cases hf : firstWan p xs with
      | none => simp [hf] at h
      | some r =>
        obtain ⟨k, u⟩ := r
        simp only [hf, Option.map_some', Option.some.injEq, Prod.mk.injEq] at h
        obtain ⟨rfl, rfl⟩ := h
        obtain ⟨h1, h2, h3⟩ := ih hf
        refine ⟨by simpa using h1, h2, ?_⟩
        intro j v hj hv
        cases j with
        | zero =>
          simp only [List.getElem?_cons_zero, Option.some.injEq] at hv
          subst hv
          simpa using hx
        | succ j =>
          simp only [List.getElem?_cons_succ] at hv
          exact h3 j v (by omega) hv

theorem firstWan_none {p : wanWrap → Bool} :
    ∀ {l : List wanWrap}, firstWan p l = none → ∀ w ∈ l, p w = false := by
  intro l
  induction l with
  | nil => intro _ w hw; simp at hw
  | cons x xs ih =>
    intro h w hw
    unfold firstWan at h
    by_cases hx : p x = true
    · simp [hx] at h
    · simp only [hx, Bool.false_eq_true, if_false, Option.map_eq_none'] at h
      rcases List.mem_cons.mp hw with rfl | hw
      · simpa using hx
      · exact ih h w hw

theorem firstWan_of_first {p : wanWrap → Bool} :
    ∀ {l : List wanWrap} {i : Nat} {w : wanWrap}, l[i]? = some w → p w = true →
      (∀ (j : Nat) (v : wanWrap), j < i → l[j]? = some v → p v = false) →
      firstWan p l = some (i, w) := by
  intro l
  induction l with
  | nil => intro i w h; simp at h
  | cons x xs ih =>
    intro i w h hp hlt
    cases i with
    | zero =>
      simp only [List.getElem?_cons_zero, Option.some.injEq] at h
      subst h
      simp [firstWan, hp]
    | succ i =>
      simp only [List.getElem?_cons_succ] at h
      have hx : p x = false := hlt 0 x (by omega) (by simp)
      have := ih h hp (fun j v hj hv => hlt (j + 1) v (by omega) (by simpa using hv))
      simp [firstWan, hx, this]

theorem firstWan_isSome_of_mem {p : wanWrap → Bool} {l : List wanWrap} {w : wanWrap}
    (hw : w ∈ l) (hp : p w = true) : ∃ r, firstWan p l = some r := by
  cases h : firstWan p l with
  | some r => exact ⟨r, rfl⟩
  | none =>
    have := firstWan_none h w hw
    simp [hp] at this

theorem setActive_length : ∀ (l : List wanWrap) (i : Nat) (b : Bool),
    (setActive l i b).length = l.length := by
  intro l
  induction l with
  | nil => intro i b; simp [setActive]
  | cons x xs ih =>
    intro i b
    cases i with
    | zero => simp [setActive]
    | succ i => simp [setActive, ih]

theorem setActive_getElem?_self : ∀ (l : List wanWrap) (i : Nat) (b : Bool),
    (setActive l i b)[i]? = (l[i]?).map (fun w => { w with active := b }) := by
  intro l
  induction l with
  | nil => intro i b; simp [setActive]
  | cons x xs ih =>
    intro i b
    cases i with
    | zero => simp [setActive]
    | succ i => simp [setActive, ih]

theorem setActive_getElem?_ne : ∀ (l : List wanWrap) (i j : Nat) (b : Bool), j ≠ i →
    (setActive l i b)[j]? = l[j]? := by
  intro l
  induction l with
  | nil => intro i j b _; simp [setActive]
  | cons x xs ih =>
    intro i j b hne
    cases i with
    | zero =>
      cases j with
      | zero => exact absurd rfl hne
      | succ j => simp [setActive]
    | succ i =>
      cases j with
      | zero => simp [setActive]
      | succ j => simp [setActive, ih i j b (by omega)]

theorem countP_setActive_false : ∀ (l : List wanWrap) (i : Nat) (w : wanWrap),
    l[i]? = some w → w.active = true →
    (setActive l i false).countP (fun w => w.active) + 1 = l.countP (fun w => w.active) := by
  intro l
  induction l with
  | nil => intro i w h; simp at h
  | cons x xs ih =>
    intro i w h hw
    cases i with
    | zero =>
      simp only [List.getElem?_cons_zero, Option.some.injEq] at h
      subst h
      simp [setActive, List.countP_cons, hw]
    | succ i =>
      simp only [List.getElem?_cons_succ] at h
      have := ih i w h hw
      simp only [setActive, List.countP_cons]
      omega

theorem countP_setActive_true_le : ∀ (l : List wanWrap) (i : Nat),
    (setActive l i true).countP (fun w => w.active) ≤ l.countP (fun w => w.active) + 1 := by
  intro l
  induction l with
  | nil => intro i; simp [setActive]
  | cons x xs ih =>
    intro i
    cases i with
    | zero =>
      simp only [setActive, List.countP_cons]
      split <;> split <;> omega
    | succ i =>
      have := ih i
      simp only [setActive, List.countP_cons]
      omega

/-! ## The switch procedure -/

theorem deactivate_getElem?_idle {wm : wanManager} {j : Nat} {u : wanWrap}
    (hu : wm.wans[j]? = some u) (hidle : u.active = false) :
    (deactivate wm).wans[j]? = some u := by
  unfold deactivate
  cases h : getActiveWan wm with
  | none => simpa using hu
  | some r =>
    obtain ⟨a, x⟩ := r
    obtain ⟨hx, hxa, _⟩ := firstWan_some h
    have hne : j ≠ a := by
      rintro rfl
      rw [hu] at hx
      simp only [Option.some.injEq] at hx
      subst hx
      simp [hidle] at hxa
    simpa [setActive_getElem?_ne _ _ _ _ hne] using hu

theorem deactivate_getElem? {wm : wanManager} {j : Nat} {v : wanWrap}
    (hv : (deactivate wm).wans[j]? = some v) :
    ∃ u, wm.wans[j]? = some u ∧ v.wan = u.wan ∧ v.command = u.command ∧
      (v.active = true → u.active = true) ∧
      (u.active = false → v = u) := by
  unfold deactivate at hv
  cases h : getActiveWan wm with
  | none =>
    simp only [h] at hv
    exact ⟨v, hv, rfl, rfl, id, fun _ => rfl⟩
  | some r =>
    obtain ⟨a, x⟩ := r
    simp only [h] at hv
    obtain ⟨hx, hxa, _⟩ := firstWan_some h
    by_cases hja : j = a
    · subst hja
      rw [setActive_getElem?_self, hx] at hv
      simp only [Option.map_some', Option.some.injEq] at hv
      subst hv
      refine ⟨x, hx, rfl, rfl, by simp, ?_⟩
      intro hc
      simp [hc] at hxa
    · rw [setActive_getElem?_ne _ _ _ _ hja] at hv
      exact ⟨v, hv, rfl, rfl, id, fun _ => rfl⟩

theorem switchActiveWan_none {wm : wanManager} (procOk : Bool)
    (h : replacement (deactivate wm) = none) :
    switchActiveWan wm procOk =
      { wm := deactivate wm, selected := none, executed := none,
        status := switchStatus.errNoCandidate } := by
  simp only [switchActiveWan, h]

theorem switchActiveWan_panicked {wm : wanManager} {procOk : Bool} {i : Nat} {w : wanWrap}
    (h : replacement (deactivate wm) = some (i, w)) (he : execute w.command procOk = none) :
    switchActiveWan wm procOk =
      { wm := deactivate wm, selected := some (i, w), executed := none,
        status := switchStatus.panicked } := by
  simp only [switchActiveWan, h, he]

theorem switchActiveWan_failed {wm : wanManager} {procOk : Bool} {i : Nat} {w : wanWrap}
    (h : replacement (deactivate wm) = some (i, w))
    (he : execute w.command procOk = some false) :
    switchActiveWan wm procOk =
      { wm := deactivate wm, selected := some (i, w), executed := some w.command,
        status := switchStatus.errCommandFailed } := by
  simp only [switchActiveWan, h, he]

theorem switchActiveWan_switched {wm : wanManager} {procOk : Bool} {i : Nat} {w : wanWrap}
    (h : replacement (deactivate wm) = some (i, w))
    (he : execute w.command procOk = some true) :
    switchActiveWan wm procOk =
      { wm := { wans := setActive (deactivate wm).wans i true }, selected := some (i, w),
        executed := some w.command, status := switchStatus.switched } := by
  simp only [switchActiveWan, h, he]

theorem switchActiveWan_selected (wm : wanManager) (procOk : Bool) :
    (switchActiveWan wm procOk).selected = replacement (deactivate wm) := by
  cases h : replacement (deactivate wm) with
  | none => rw [switchActiveWan_none procOk h]
  | some r =>
    obtain ⟨i, w⟩ := r
    cases he : execute w.command procOk with
    | none => rw [switchActiveWan_panicked h he]
    | some b =>
      cases b
      · rw [switchActiveWan_failed h he]
      · rw [switchActiveWan_switched h he]

/-- The replacement chosen when some link is idle and Stable at selection
time: the first such link. -/
theorem replacement_of_stable {wm : wanManager} {u : wanWrap} (hu : u ∈ wm.wans)
    (hidle : u.active = false) (hst : u.wan.state = wanState.stateStable) :
    ∃ i w, replacement wm = some (i, w) ∧ getStableIdleWan wm = some (i, w) := by
  have hp : (fun w : wanWrap => !w.active && w.wan.isStable) u = true := by
    simp [hidle, wan.isStable, wan.is, hst]
  obtain ⟨r, hr⟩ :=
    firstWan_isSome_of_mem (p := fun w : wanWrap => !w.active && w.wan.isStable) hu hp
  obtain ⟨i, w⟩ := r
  refine ⟨i, w, ?_, hr⟩
  unfold replacement getStableIdleWan
  rw [hr]

/-- C1 as stated fails. Link 1 idle and Alive, link 2 active and Stable,
link 3 idle and Stable: the first Stable non-active link of the state is
link 3, and `switchActiveWan` selects link 2, the link it has just
deactivated. -/
theorem switchActiveWan_selects_deactivated_link :
    (∃ u ∈ link1AliveLink2ActiveLink3Stable.wans,
      u.active = false ∧ u.wan.state = wanState.stateStable) ∧
    getStableIdleWan link1AliveLink2ActiveLink3Stable =
      some (2, mkWan 3 wanState.stateStable false) ∧
    getActiveWan link1AliveLink2ActiveLink3Stable =
      some (1, mkWan 2 wanState.stateStable true) ∧
    (switchActiveWan link1AliveLink2ActiveLink3Stable true).selected =
      some (1, mkWan 2 wanState.stateStable false) := by
  refine ⟨by decide, rfl, rfl, rfl⟩

/-- C1, amended. When some non-active link is Stable, the replacement
selected by `switchActiveWan` is Stable and is the first link in configured
order that is Stable and not flagged active at selection time, after the flag
of the old active link has been cleared. No non-active Stable link of the
state before the call precedes it; it is the first Stable non-active link of
that state (`getStableIdleWan`) unless it is the link just deactivated, which
is then itself Stable. The priorities of Alive links play no part. Conversely
an Alive link is selected only when no non-active link is Stable. -/
theorem switchActiveWan_prefers_stable (wm : wanManager) (procOk : Bool) :
    ((∃ u ∈ wm.wans, u.active = false ∧ u.wan.state = wanState.stateStable) →
      ∃ i w, (switchActiveWan wm procOk).selected = some (i, w) ∧
        (deactivate wm).wans[i]? = some w ∧
        w.active = false ∧ w.wan.state = wanState.stateStable ∧
        (∀ (j : Nat) (v : wanWrap), j < i → (deactivate wm).wans[j]? = some v →
          ¬ (v.active = false ∧ v.wan.state = wanState.stateStable)) ∧
        (∀ (j : Nat) (v : wanWrap), j < i → wm.wans[j]? = some v →
          ¬ (v.active = false ∧ v.wan.state = wanState.stateStable)) ∧
        ((∀ x, getActiveWan wm ≠ some (i, x)) → getStableIdleWan wm = some (i, w)) ∧
        (∀ x, getActiveWan wm = some (i, x) →
          x.wan.state = wanState.stateStable ∧ w = { x with active := false })) ∧
    (∀ (i : Nat) (w : wanWrap), (switchActiveWan wm procOk).selected = some (i, w) →
      w.wan.state = wanState.stateAlive →
      ∀ u ∈ wm.wans, ¬ (u.active = false ∧ u.wan.state = wanState.stateStable)) := by
  have key : (∃ u ∈ wm.wans, u.active = false ∧ u.wan.state = wanState.stateStable) →
      ∃ i w, (switchActiveWan wm procOk).selected = some (i, w) ∧
        getStableIdleWan (deactivate wm) = some (i, w) := by
    rintro ⟨u, hu, hidle, hst⟩
    obtain ⟨k, hk⟩ := List.mem_iff_getElem?.mp hu
    have hk1 := deactivate_getElem?_idle hk hidle
    obtain ⟨i, w, hr, hs⟩ := replacement_of_stable (List.getElem?_mem hk1) hidle hst
    exact ⟨i, w, by rw [switchActiveWan_selected, hr], hs⟩
  constructor
  · intro hex
    obtain ⟨i, w, hsel, hs⟩ := key hex
    obtain ⟨hw, hpw, hfirst⟩ := firstWan_some hs
    simp only [Bool.and_eq_true, Bool.not_eq_true', wan.isStable, wan.is,
      decide_eq_true_eq] at hpw
    have hfirst1 : ∀ (j : Nat) (v : wanWrap), j < i → (deactivate wm).wans[j]? = some v →
        ¬ (v.active = false ∧ v.wan.state = wanState.stateStable) := by
      intro j v hj hv hc
      have := hfirst j v hj hv
      simp [hc.1, hc.2, wan.isStable, wan.is] at this
    have hfirst0 : ∀ (j : Nat) (v : wanWrap), j < i → wm.wans[j]? = some v →
        ¬ (v.active = false ∧ v.wan.state = wanState.stateStable) := by
      intro j v hj hv hc
      exact hfirst1 j v hj (deactivate_getElem?_idle hv hc.1) hc
    refine ⟨i, w, hsel, hw, hpw.1, hpw.2, hfirst1, hfirst0, ?_, ?_⟩
    swap
    · intro x hx
      obtain ⟨hxi, _, _⟩ := firstWan_some hx
      have hw2 := hw
      simp only [deactivate, hx] at hw2
      rw [setActive_getElem?_self, hxi] at hw2
      simp only [Option.map_some', Option.some.injEq] at hw2
      subst hw2
      exact ⟨hpw.2, rfl⟩
    intro hna
    obtain ⟨u, hu, _, _, _, _⟩ := deactivate_getElem? hw
    have huw : u = w := by
      unfold deactivate at hw
      cases h : getActiveWan wm with
      | none =>
        simp only [h] at hw
        rw [hu] at hw
        exact Option.some.inj hw
      | some r =>
        obtain ⟨a, x⟩ := r
        simp only [h] at hw
        have hia : i ≠ a := by
          rintro rfl
          exact hna x h
        rw [setActive_getElem?_ne _ _ _ _ hia, hu] at hw
        exact Option.some.inj hw
    subst huw
    exact firstWan_of_first hu
      (by simp [hpw.1, hpw.2, wan.isStable, wan.is])
      (fun j v hj hv => by
        have := hfirst0 j v hj hv
        by_cases ha : v.active = false
        · have hs' : v.wan.state ≠ wanState.stateStable := fun h => this ⟨ha, h⟩
          simp [ha, wan.isStable, wan.is, hs']
        · simp at ha
          simp [ha])
  · intro i w hsel halive u hu hc
    obtain ⟨i', w', hsel', hs⟩ := key ⟨u, hu, hc⟩
    rw [hsel] at hsel'
    simp only [Option.some.injEq, Prod.mk.injEq] at hsel'
    obtain ⟨rfl, rfl⟩ := hsel'
    obtain ⟨_, hpw, _⟩ := firstWan_some hs
    simp only [Bool.and_eq_true, Bool.not_eq_true', wan.isStable, wan.is,
      decide_eq_true_eq] at hpw
    rw [hpw.2] at halive
    exact absurd halive (by decide)

/-- C1, amended, on "link 1 idle and Alive, link 2 active and down, link 3
idle and Stable": the replacement is the Stable link 3, not the Alive link 1
of better priority. -/
theorem switchActiveWan_prefers_stable_witness :
    (∃ v ∈ link1AliveLink2DownLink3Stable.wans, v.active = false ∧
      v.wan.state = wanState.stateAlive ∧ v.wan.pri < 3) ∧
    ∃ i w, (switchActiveWan link1AliveLink2DownLink3Stable true).selected = some (i, w) ∧
      w.wan.state = wanState.stateStable ∧ w.wan.pri = 3 :=
  ⟨by decide,
    match (switchActiveWan_prefers_stable link1AliveLink2DownLink3Stable true).1
      (by decide) with
    | ⟨i, w, h1, _, _, h4, _⟩ => ⟨i, w, h1, h4, by
        have h : (switchActiveWan link1AliveLink2DownLink3Stable true).selected =
            some (2, mkWan 3 wanState.stateStable false) := rfl
        rw [h] at h1
        simp only [Option.some.injEq, Prod.mk.injEq] at h1
        rw [← h1.2]
        rfl⟩⟩

/-! ## At most one active link -/

theorem activeCount_deactivate {wm : wanManager} (h : activeCount wm ≤ 1) :
    activeCount (deactivate wm) = 0 := by
  unfold deactivate
  cases hg : getActiveWan wm with
  | none =>
    simp only [activeCount]
    rw [List.countP_eq_zero]
    intro w hw
    simpa using firstWan_none hg w hw
  | some r =>
    obtain ⟨a, x⟩ := r
    obtain ⟨hx, hxa, _⟩ := firstWan_some hg
    have := countP_setActive_false wm.wans a x hx hxa
    simp only [activeCount] at h ⊢
    omega

theorem activeCount_switchActiveWan {wm : wanManager} (procOk : Bool)
    (h : activeCount wm ≤ 1) : activeCount (switchActiveWan wm procOk).wm ≤ 1 := by
  have h0 := activeCount_deactivate h
  cases hr : replacement (deactivate wm) with
  | none => rw [switchActiveWan_none procOk hr]; simp [h0]
  | some r =>
    obtain ⟨i, w⟩ := r
    cases he : execute w.command procOk with
    | none => rw [switchActiveWan_panicked hr he]; simp [h0]
    | some b =>
      cases b
      · rw [switchActiveWan_failed hr he]; simp [h0]
      · rw [switchActiveWan_switched hr he]
        have := countP_setActive_true_le (deactivate wm).wans i
        simp only [activeCount] at h0 ⊢
        omega

/-- Every iteration of `listen` either leaves the manager alone or makes
exactly one call of `switchActiveWan`. -/
theorem listen_cases (wm : wanManager) (e : wanEvent) (procOk : Bool) :
    listen wm e procOk = listenOutcome.skip wm ∨
      listen wm e procOk = listenOutcome.switch wm procOk := by
  unfold listen
  simp only []
  repeat' split
  all_goals first | exact Or.inl rfl | exact Or.inr rfl

/-- C2. At most one active link is an invariant of the decision loop: from a
manager state with at most one link flagged active, for every lifecycle event
and every outcome of the activation command, the state after the iteration
of `listen` has at most one link flagged active. -/
theorem listen_preserves_atMostOneActive (wm : wanManager) (e : wanEvent) (procOk : Bool)
    (h : activeCount wm ≤ 1) : activeCount (listen wm e procOk).wm ≤ 1 := by
  rcases listen_cases wm e procOk with hl | hl
  · rw [hl]; exact h
  · rw [hl]; exact activeCount_switchActiveWan procOk h

/-- C2 on "link 2 active, link 1 idle and Stable", a Stable event from
link 1: one link is active before and after. -/
theorem listen_preserves_atMostOneActive_witness :
    activeCount link1StableLink2Active ≤ 1 ∧
    activeCount (listen link1StableLink2Active
      { wanPri := 1, event := wanEventType.eventWanStable } true).wm ≤ 1 :=
  ⟨by decide, listen_preserves_atMostOneActive link1StableLink2Active
    { wanPri := 1, event := wanEventType.eventWanStable } true (by decide)⟩

/-! ## Switching to the first idle Stable link -/

theorem ascending_of_priorityOrder {wm : wanManager} (hord : priorityOrder wm) :
    ascending wm := by
  intro i j u v hij hu hv
  rw [hord i u hu, hord j v hv]
  omega

theorem ascending_lt {wm : wanManager} (hord : ascending wm) {i j : Nat}
    {u v : wanWrap} (hu : wm.wans[i]? = some u) (hv : wm.wans[j]? = some v) :
    u.wan.pri < v.wan.pri ↔ i < j := by
  constructor
  · intro hlt
    by_contra hc
    rcases Nat.lt_or_ge j i with hji | hge
    · have := hord j i v u hji hv hu
      omega
    · have hij : i = j := by omega
      subst hij
      rw [hu] at hv
      simp only [Option.some.injEq] at hv
      subst hv
      omega
  · intro hij
    exact hord i j u v hij hu hv

theorem ascending_eq {wm : wanManager} (hord : ascending wm) {i j : Nat}
    {u v : wanWrap} (hu : wm.wans[i]? = some u) (hv : wm.wans[j]? = some v) :
    u.wan.pri = v.wan.pri ↔ i = j := by
  constructor
  · intro heq
    by_contra hc
    rcases Nat.lt_or_ge i j with hij | hge
    · have := hord i j u v hij hu hv
      omega
    · have := hord j i v u (by omega) hv hu
      omega
  · intro hij
    subst hij
    rw [hu] at hv
    simp only [Option.some.injEq] at hv
    rw [hv]

theorem idle_before_active {wm : wanManager} {s : Nat}
    (hafter : ∀ a x, getActiveWan wm = some (a, x) → s < a) :
    ∀ (j : Nat) (u : wanWrap), j ≤ s → wm.wans[j]? = some u → u.active = false := by
  intro j u hj hu
  by_contra hact
  simp only [Bool.not_eq_false] at hact
  obtain ⟨r, hr⟩ :=
    firstWan_isSome_of_mem (p := fun w : wanWrap => w.active) (List.getElem?_mem hu) hact
  obtain ⟨a, x⟩ := r
  obtain ⟨_, _, hfirst⟩ := firstWan_some hr
  have hsa := hafter a x hr
  have := hfirst j u (by omega) hu
  simp [hact] at this

theorem getStableIdleWan_deactivate {wm : wanManager} {s : Nat} {w : wanWrap}
    (hs : getStableIdleWan wm = some (s, w))
    (hafter : ∀ a x, getActiveWan wm = some (a, x) → s < a) :
    getStableIdleWan (deactivate wm) = some (s, w) := by
  obtain ⟨hw, hpw, hfirst⟩ := firstWan_some hs
  have hidle : w.active = false := idle_before_active hafter s w (le_refl s) hw
  refine firstWan_of_first (deactivate_getElem?_idle hw hidle) hpw ?_
  intro j v hj hv
  obtain ⟨u, hu, _, _, _, huv⟩ := deactivate_getElem? hv
  have := huv (idle_before_active hafter j u (by omega) hu)
  subst this
  exact hfirst j v hj hu

theorem activeCount_zero {wm : wanManager} (h : activeCount wm = 0) :
    ∀ (j : Nat) (v : wanWrap), wm.wans[j]? = some v → v.active = false := by
  intro j v hv
  simp only [activeCount] at h
  rw [List.countP_eq_zero] at h
  simpa using h v (List.getElem?_mem hv)

/-- A call of `switchActiveWan` whose first idle Stable link `s` precedes the
active link, and whose command runs: `s` is selected and ends up active, the
old active link is cleared. -/
theorem switchActiveWan_to_stable {wm : wanManager} {procOk : Bool} {s : Nat} {w : wanWrap}
    (hs : getStableIdleWan wm = some (s, w))
    (hafter : ∀ a x, getActiveWan wm = some (a, x) → s < a)
    (hexec : execute w.command procOk = some true) :
    (switchActiveWan wm procOk).selected = some (s, w) ∧
    (switchActiveWan wm procOk).executed = some w.command ∧
    (switchActiveWan wm procOk).status = switchStatus.switched ∧
    getActiveWan (switchActiveWan wm procOk).wm = some (s, { w with active := true }) ∧
    (∀ a x, getActiveWan wm = some (a, x) →
      (switchActiveWan wm procOk).wm.wans[a]? = some { x with active := false }) ∧
    (activeCount wm ≤ 1 → onlyActive (switchActiveWan wm procOk).wm s) := by
  have hs1 := getStableIdleWan_deactivate hs hafter
  have hr : replacement (deactivate wm) = some (s, w) := by
    unfold replacement
    rw [hs1]
  obtain ⟨hw1, _, _⟩ := firstWan_some hs1
  rw [switchActiveWan_switched hr hexec]
  refine ⟨rfl, rfl, rfl, ?_, ?_, ?_⟩
  · refine firstWan_of_first ?_ rfl ?_
    · simp only []
      rw [setActive_getElem?_self, hw1]
      rfl
    · intro j v hj hv
      simp only [] at hv
      rw [setActive_getElem?_ne _ _ _ _ (by omega)] at hv
      obtain ⟨u, hu, _, _, _, huv⟩ := deactivate_getElem? hv
      have hidle := idle_before_active hafter j u (by omega) hu
      have := huv hidle
      subst this
      exact hidle
  · intro a x hax
    have hsa := hafter a x hax
    obtain ⟨hx, _, _⟩ := firstWan_some hax
    simp only []
    rw [setActive_getElem?_ne _ _ _ _ (by omega)]
    unfold deactivate
    rw [hax]
    simp only []
    rw [setActive_getElem?_self, hx]
    rfl
  · intro hone j v hv
    simp only [] at hv
    have h0 := activeCount_zero (activeCount_deactivate hone)
    by_cases hjs : j = s
    · subst hjs
      rw [setActive_getElem?_self, hw1] at hv
      simp only [Option.map_some', Option.some.injEq] at hv
      subst hv
      simp
    · rw [setActive_getElem?_ne _ _ _ _ hjs] at hv
      simp [h0 j v hv, hjs]

/-! ## The branches of `listen` -/

theorem listen_stable_switch {wm : wanManager} {e : wanEvent} (procOk : Bool)
    (he : e.event = wanEventType.eventWanStable)
    (hlt : e.wanPri < getActiveWanPriority wm)
    (halive : ∀ i alive, getAliveIdleWan wm = some (i, alive) → ¬ alive.wan.pri < e.wanPri) :
    listen wm e procOk = listenOutcome.switch wm procOk := by
  unfold listen
  rw [he]
  simp only [hlt, if_true]
  cases hg : getAliveIdleWan wm with
  | none => rfl
  | some r =>
    obtain ⟨i, alive⟩ := r
    simp only [halive i alive hg, if_false]

theorem listen_stable_skip {wm : wanManager} {e : wanEvent} (procOk : Bool)
    (he : e.event = wanEventType.eventWanStable)
    (h : ¬ e.wanPri < getActiveWanPriority wm ∨
      ∃ i alive, getAliveIdleWan wm = some (i, alive) ∧ alive.wan.pri < e.wanPri) :
    listen wm e procOk = listenOutcome.skip wm := by
  unfold listen
  rw [he]
  by_cases hlt : e.wanPri < getActiveWanPriority wm
  · rcases h with h | ⟨i, alive, hg, hp⟩
    · exact absurd hlt h
    · simp only [hlt, if_true, hg, hp]
  · simp only [hlt, if_false]

theorem listen_down_active {wm : wanManager} {e : wanEvent} (procOk : Bool)
    (he : e.event = wanEventType.eventWanDown)
    (heq : e.wanPri = getActiveWanPriority wm) :
    listen wm e procOk = listenOutcome.switch wm procOk := by
  unfold listen
  rw [he]
  simp only [heq, if_true]

theorem listen_down_idle_switch {wm : wanManager} {e : wanEvent} (procOk : Bool)
    {s : Nat} {stable : wanWrap}
    (he : e.event = wanEventType.eventWanDown)
    (hne : e.wanPri ≠ getActiveWanPriority wm)
    (hs : getStableIdleWan wm = some (s, stable))
    (hlt : stable.wan.pri < getActiveWanPriority wm)
    (halive : ∀ i alive, getAliveIdleWan wm = some (i, alive) →
      ¬ alive.wan.pri < stable.wan.pri) :
    listen wm e procOk = listenOutcome.switch wm procOk := by
  unfold listen
  rw [he]
  simp only [hne, if_false, hs, hlt, if_true]
  cases hg : getAliveIdleWan wm with
  | none => rfl
  | some r =>
    obtain ⟨i, alive⟩ := r
    simp only [halive i alive hg, if_false]

theorem listen_down_idle_skip {wm : wanManager} {e : wanEvent} (procOk : Bool)
    (he : e.event = wanEventType.eventWanDown)
    (hne : e.wanPri ≠ getActiveWanPriority wm)
    (hs : ∀ s stable, getStableIdleWan wm = some (s, stable) →
      ¬ stable.wan.pri < getActiveWanPriority wm) :
    listen wm e procOk = listenOutcome.skip wm := by
  unfold listen
  rw [he]
  simp only [hne, if_false]
  cases hg : getStableIdleWan wm with
  | none => rfl
  | some r =>
    obtain ⟨s, stable⟩ := r
    simp only [hs s stable hg, if_false]

theorem listen_up_active {wm : wanManager} {e : wanEvent} (procOk : Bool)
    {r : Nat × wanWrap} (he : e.event = wanEventType.eventWanUp)
    (hg : getActiveWan wm = some r) :
    listen wm e procOk = listenOutcome.skip wm := by
  unfold listen
  rw [he]
  simp only [hg]

theorem listen_up_none {wm : wanManager} {e : wanEvent} (procOk : Bool)
    (he : e.event = wanEventType.eventWanUp) (hg : getActiveWan wm = none) :
    listen wm e procOk = listenOutcome.switch wm procOk := by
  unfold listen
  rw [he]
  simp only [hg]

theorem getActiveWanPriority_some {wm : wanManager} {a : Nat} {x : wanWrap}
    (hg : getActiveWan wm = some (a, x)) : getActiveWanPriority wm = x.wan.pri := by
  unfold getActiveWanPriority
  rw [hg]

theorem getActiveWanPriority_none {wm : wanManager}
    (hg : getActiveWan wm = none) : getActiveWanPriority wm = (wm.wans.length : Int) + 1 := by
  unfold getActiveWanPriority
  rw [hg]

theorem getElem?_lt_length {l : List wanWrap} {i : Nat} {w : wanWrap}
    (h : l[i]? = some w) : i < l.length := by
  by_contra hc
  rw [List.getElem?_eq_none (by omega)] at h
  simp at h

/-- The scan for an idle link in health state `st` finds a link in that
state, not flagged active. -/
theorem getAliveIdleWan_some {wm : wanManager} {i : Nat} {w : wanWrap}
    (h : getAliveIdleWan wm = some (i, w)) :
    wm.wans[i]? = some w ∧ w.active = false ∧ w.wan.state = wanState.stateAlive := by
  obtain ⟨hw, hp, _⟩ := firstWan_some h
  simp only [Bool.and_eq_true, Bool.not_eq_true', wan.isAlive, wan.is,
    decide_eq_true_eq] at hp
  exact ⟨hw, hp.1, hp.2⟩

theorem getStableIdleWan_some {wm : wanManager} {i : Nat} {w : wanWrap}
    (h : getStableIdleWan wm = some (i, w)) :
    wm.wans[i]? = some w ∧ w.active = false ∧ w.wan.state = wanState.stateStable := by
  obtain ⟨hw, hp, _⟩ := firstWan_some h
  simp only [Bool.and_eq_true, Bool.not_eq_true', wan.isStable, wan.is,
    decide_eq_true_eq] at hp
  exact ⟨hw, hp.1, hp.2⟩

/-! ## Stable events -/

theorem prioritiesFrom_sound : ∀ (l : List wanWrap) (k : Int), prioritiesFrom k l = true →
    ∀ (i : Nat) (w : wanWrap), l[i]? = some w → w.wan.pri = k + (i : Int) := by
  intro l
  induction l with
  | nil => intro k _ i w h; simp at h
  | cons x xs ih =>
    intro k hk i w h
    simp only [prioritiesFrom, Bool.and_eq_true, decide_eq_true_eq] at hk
    cases i with
    | zero =>
      simp only [List.getElem?_cons_zero, Option.some.injEq] at h
      subst h
      simp [hk.1]
    | succ i =>
      simp only [List.getElem?_cons_succ] at h
      have := ih (k + 1) hk.2 i w h
      rw [this]
      push_cast
      ring

theorem priorityOrder_of_check {wm : wanManager} (h : prioritiesFrom 1 wm.wans = true) :
    priorityOrder wm := by
  intro i w hw
  rw [prioritiesFrom_sound wm.wans 1 h i w hw]
  ring

/-- C3 as stated fails. No link is active, links 1 and 2 are idle and Stable,
no link is Alive: a Stable event for priority 2 whose command succeeds makes
link 1 the active link, and link 2 stays idle. -/
theorem listen_stable_event_activates_better_link :
    priorityOrder twoStableNoActive ∧
    twoStableNoActive.wans[1]? = some (mkWan 2 wanState.stateStable false) ∧
    getActiveWan twoStableNoActive = none ∧
    (∀ v ∈ twoStableNoActive.wans, v.active = false → v.wan.state = wanState.stateAlive →
      ¬ v.wan.pri < 2) ∧
    (listen twoStableNoActive { wanPri := 2, event := wanEventType.eventWanStable } true).call =
      some { wm := { wans := [mkWan 1 wanState.stateStable true,
                mkWan 2 wanState.stateStable false, mkWan 3 wanState.stateInit false] },
             selected := some (0, mkWan 1 wanState.stateStable false),
             executed := some (mkWan 1 wanState.stateStable false).command,
             status := switchStatus.switched } ∧
    (listen twoStableNoActive { wanPri := 2, event := wanEventType.eventWanStable } true).wm.wans =
      [mkWan 1 wanState.stateStable true, mkWan 2 wanState.stateStable false,
        mkWan 3 wanState.stateInit false] ∧
    ¬ onlyActive
      (listen twoStableNoActive { wanPri := 2, event := wanEventType.eventWanStable } true).wm 1 := by
  refine ⟨priorityOrder_of_check (by decide), rfl, rfl, by decide, rfl, rfl, ?_⟩
  intro h
  have := (h 0 (mkWan 1 wanState.stateStable true) rfl).mp rfl
  exact absurd this (by decide)

/-- C3, amended. On a Stable event for priority P, in a manager state with
priorities in configured order where link P is idle and Stable, P is strictly
more preferred than the active link (or no link is active), no idle Alive
link and no idle Stable link has a priority better than P, and the command
of link P succeeds: `switchActiveWan` is called, runs the command of link P,
and afterwards link P is the active link, the only one when at most one link
was active before. -/
theorem listen_stable_switches_to_P (wm : wanManager) (e : wanEvent) (procOk : Bool)
    (p : Nat) (w : wanWrap)
    (hord : priorityOrder wm)
    (he : e.event = wanEventType.eventWanStable)
    (hp : wm.wans[p]? = some w) (hpri : e.wanPri = w.wan.pri)
    (hidle : w.active = false) (hst : w.wan.state = wanState.stateStable)
    (hact : getActiveWan wm = none ∨
      ∃ a x, getActiveWan wm = some (a, x) ∧ e.wanPri < x.wan.pri)
    (halive : ∀ v ∈ wm.wans, v.active = false → v.wan.state = wanState.stateAlive →
      ¬ v.wan.pri < e.wanPri)
    (hstable : ∀ v ∈ wm.wans, v.active = false → v.wan.state = wanState.stateStable →
      ¬ v.wan.pri < e.wanPri)
    (hexec : execute w.command procOk = some true) :
    (listen wm e procOk).call = some (switchActiveWan wm procOk) ∧
    (switchActiveWan wm procOk).status = switchStatus.switched ∧
    (switchActiveWan wm procOk).executed = some w.command ∧
    getActiveWan (listen wm e procOk).wm = some (p, { w with active := true }) ∧
    (activeCount wm ≤ 1 → onlyActive (listen wm e procOk).wm p) := by
  have hplt := getElem?_lt_length hp
  have hwp := hord p w hp
  have hlt : e.wanPri < getActiveWanPriority wm := by
    rcases hact with hn | ⟨a, x, hg, hx⟩
    · rw [getActiveWanPriority_none hn, hpri, hwp]
      omega
    · rw [getActiveWanPriority_some hg]
      exact hx
  have hl : listen wm e procOk = listenOutcome.switch wm procOk := by
    refine listen_stable_switch procOk he hlt ?_
    intro i alive hg
    obtain ⟨h1, h2, h3⟩ := getAliveIdleWan_some hg
    exact halive alive (List.getElem?_mem h1) h2 h3
  have hs : getStableIdleWan wm = some (p, w) := by
    refine firstWan_of_first hp (by simp [hidle, wan.isStable, wan.is, hst]) ?_
    intro j v hj hv
    by_cases hva : v.active = false
    · have hns : v.wan.state ≠ wanState.stateStable := by
        intro hvs
        apply hstable v (List.getElem?_mem hv) hva hvs
        rw [hpri]
        exact (ascending_lt (ascending_of_priorityOrder hord) hv hp).mpr hj
      simp [hva, wan.isStable, wan.is, hns]
    · simp only [Bool.not_eq_false] at hva
      simp [hva]
  have hafter : ∀ a x, getActiveWan wm = some (a, x) → p < a := by
    intro a x hg
    rcases hact with hn | ⟨a', x', hg', hx⟩
    · rw [hn] at hg
      exact absurd hg (by simp)
    · rw [hg] at hg'
      simp only [Option.some.injEq, Prod.mk.injEq] at hg'
      obtain ⟨rfl, rfl⟩ := hg'
      obtain ⟨hxa, _, _⟩ := firstWan_some hg
      rw [hpri] at hx
      exact (ascending_lt (ascending_of_priorityOrder hord) hp hxa).mp hx
  obtain ⟨_, h2, h3, h4, _, h6⟩ := switchActiveWan_to_stable hs hafter hexec
  rw [hl]
  exact ⟨rfl, h3, h2, h4, h6⟩

/-- C3, amended, on the scenario "link 2 active, link 1 becomes Stable": the
hypotheses hold and link 1 ends as the only active link. -/
theorem listen_stable_switches_to_P_witness :
    priorityOrder link1StableLink2Active ∧
    activeCount link1StableLink2Active ≤ 1 ∧
    onlyActive (listen link1StableLink2Active
      { wanPri := 1, event := wanEventType.eventWanStable } true).wm 0 :=
  ⟨priorityOrder_of_check (by decide), by decide,
    (listen_stable_switches_to_P link1StableLink2Active
      { wanPri := 1, event := wanEventType.eventWanStable } true 0
      (mkWan 1 wanState.stateStable false)
      (priorityOrder_of_check (by decide)) rfl rfl rfl rfl rfl
      (Or.inr ⟨1, mkWan 2 wanState.stateStable true, rfl, by decide⟩)
      (by decide) (by decide) rfl).2.2.2.2 (by decide)⟩

/-! ## Down events from idle links -/

/-- C4. On a Down event from a non-active link, in a manager state with
links in ascending priority order where S is the most preferred idle Stable
link, S is strictly more preferred than the active link and no idle Alive
link has a priority better than S: `switchActiveWan` is called and the
replacement it selects after clearing the old flag is S; when the command of
S succeeds, S ends up active (the only active link when at most one was
active before) and the previously active link is no longer active. -/
theorem listen_idle_down_switches_to_S (wm : wanManager) (e : wanEvent) (procOk : Bool)
    (s a : Nat) (w x : wanWrap)
    (hord : ascending wm)
    (he : e.event = wanEventType.eventWanDown)
    (hfrom : ∃ u ∈ wm.wans, u.active = false ∧ e.wanPri = u.wan.pri)
    (hs : wm.wans[s]? = some w) (hidle : w.active = false)
    (hst : w.wan.state = wanState.stateStable)
    (hbest : ∀ v ∈ wm.wans, v.active = false → v.wan.state = wanState.stateStable →
      w.wan.pri ≤ v.wan.pri)
    (ha : getActiveWan wm = some (a, x)) (hlt : w.wan.pri < x.wan.pri)
    (halive : ∀ v ∈ wm.wans, v.active = false → v.wan.state = wanState.stateAlive →
      ¬ v.wan.pri < w.wan.pri) :
    (listen wm e procOk).call = some (switchActiveWan wm procOk) ∧
    (switchActiveWan wm procOk).selected = some (s, w) ∧
    (execute w.command procOk = some true →
      (switchActiveWan wm procOk).status = switchStatus.switched ∧
      (switchActiveWan wm procOk).executed = some w.command ∧
      getActiveWan (listen wm e procOk).wm = some (s, { w with active := true }) ∧
      (listen wm e procOk).wm.wans[a]? = some { x with active := false } ∧
      (activeCount wm ≤ 1 → onlyActive (listen wm e procOk).wm s)) := by
  obtain ⟨hxa, hxact, _⟩ := firstWan_some ha
  have hne : e.wanPri ≠ getActiveWanPriority wm := by
    obtain ⟨u, hu, huidle, hupri⟩ := hfrom
    obtain ⟨d, hd⟩ := List.getElem?_of_mem hu
    rw [getActiveWanPriority_some ha, hupri]
    intro hc
    have hda := (ascending_eq hord hd hxa).mp hc
    subst hda
    rw [hd] at hxa
    simp only [Option.some.injEq] at hxa
    subst hxa
    simp [huidle] at hxact
  have hgs : getStableIdleWan wm = some (s, w) := by
    refine firstWan_of_first hs (by simp [hidle, wan.isStable, wan.is, hst]) ?_
    intro j v hj hv
    by_cases hva : v.active = false
    · have hns : v.wan.state ≠ wanState.stateStable := by
        intro hvs
        have h1 := hbest v (List.getElem?_mem hv) hva hvs
        have h2 := (ascending_lt hord hv hs).mpr hj
        omega
      simp [hva, wan.isStable, wan.is, hns]
    · simp only [Bool.not_eq_false] at hva
      simp [hva]
  have hl : listen wm e procOk = listenOutcome.switch wm procOk := by
    refine listen_down_idle_switch procOk he hne hgs ?_ ?_
    · rw [getActiveWanPriority_some ha]
      exact hlt
    · intro i alive hg
      obtain ⟨h1, h2, h3⟩ := getAliveIdleWan_some hg
      exact halive alive (List.getElem?_mem h1) h2 h3
  have hafter : ∀ a' x', getActiveWan wm = some (a', x') → s < a' := by
    intro a' x' hg
    rw [ha] at hg
    simp only [Option.some.injEq, Prod.mk.injEq] at hg
    obtain ⟨rfl, rfl⟩ := hg
    exact (ascending_lt hord hs hxa).mp hlt
  have hsel : (switchActiveWan wm procOk).selected = some (s, w) := by
    rw [switchActiveWan_selected]
    unfold replacement
    rw [getStableIdleWan_deactivate hgs hafter]
  rw [hl]
  refine ⟨rfl, hsel, ?_⟩
  intro hexec
  obtain ⟨_, h2, h3, h4, h5, h6⟩ := switchActiveWan_to_stable hgs hafter hexec
  exact ⟨h3, h2, h4, h5 a x ha, h6⟩

/-- C4 on the scenario "link 3 active, link 2 idle and Stable, link 1 goes
down": link 2 ends as the only active link. -/
theorem listen_idle_down_switches_to_S_witness :
    ascending link1DeadLink2StableLink3Active ∧
    getActiveWan link1DeadLink2StableLink3Active = some (2, mkWan 3 wanState.stateStable true) ∧
    onlyActive (listen link1DeadLink2StableLink3Active
      { wanPri := 1, event := wanEventType.eventWanDown } true).wm 1 :=
  ⟨ascending_of_priorityOrder (priorityOrder_of_check (by decide)), rfl,
    ((listen_idle_down_switches_to_S link1DeadLink2StableLink3Active
      { wanPri := 1, event := wanEventType.eventWanDown } true 1 2
      (mkWan 2 wanState.stateStable false) (mkWan 3 wanState.stateStable true)
      (ascending_of_priorityOrder (priorityOrder_of_check (by decide))) rfl
      ⟨mkWan 1 wanState.stateDead false, by simp [link1DeadLink2StableLink3Active], rfl, rfl⟩
      rfl rfl rfl (by decide) rfl (by decide) (by decide)).2.2 rfl).2.2.2.2 (by decide)⟩

/-- C5. On a Stable event for priority P the manager does not switch (the
manager state is unchanged and `switchActiveWan` is not called, so no command
runs) when P is not strictly more preferred than the active link, or when,
with links in ascending priority order, some idle Alive link has a priority
strictly better than P. -/
theorem listen_stable_no_switch (wm : wanManager) (e : wanEvent) (procOk : Bool)
    (he : e.event = wanEventType.eventWanStable)
    (h : (∃ a x, getActiveWan wm = some (a, x) ∧ ¬ e.wanPri < x.wan.pri) ∨
      (ascending wm ∧ ∃ v ∈ wm.wans, v.active = false ∧
        v.wan.state = wanState.stateAlive ∧ v.wan.pri < e.wanPri)) :
    (listen wm e procOk).wm = wm ∧ (listen wm e procOk).call = none := by
  have hl : listen wm e procOk = listenOutcome.skip wm := by
    refine listen_stable_skip procOk he ?_
    rcases h with ⟨a, x, hg, hx⟩ | ⟨hord, v, hv, hvidle, hvst, hvlt⟩
    · left
      rw [getActiveWanPriority_some hg]
      exact hx
    · right
      obtain ⟨k, hk⟩ := List.getElem?_of_mem hv
      have hpv : (fun w : wanWrap => !w.active && w.wan.isAlive) v = true := by
        simp [hvidle, wan.isAlive, wan.is, hvst]
      obtain ⟨r, hr⟩ :=
        firstWan_isSome_of_mem (p := fun w : wanWrap => !w.active && w.wan.isAlive) hv hpv
      obtain ⟨i, alive⟩ := r
      refine ⟨i, alive, hr, ?_⟩
      obtain ⟨hi, _, hfirst⟩ := firstWan_some hr
      have hik : i ≤ k := by
        by_contra hc
        have := hfirst k v (by omega) hk
        simp only [] at hpv
        rw [hpv] at this
        exact absurd this (by decide)
      rcases Nat.eq_or_lt_of_le hik with heq | hlt
      · subst heq
        rw [hi] at hk
        simp only [Option.some.injEq] at hk
        rw [hk]
        exact hvlt
      · have := hord i k alive v hlt hi hk
        omega
  rw [hl]
  exact ⟨rfl, rfl⟩

/-- C5 on its example: priorities 1, 2, 3, link 2 active and link 1 Alive; a
Stable event from link 3 causes no switch. -/
theorem listen_stable_no_switch_witness :
    (listen link1AliveLink2ActiveLink3Stable
        { wanPri := 3, event := wanEventType.eventWanStable } true).wm =
      link1AliveLink2ActiveLink3Stable ∧
    (listen link1AliveLink2ActiveLink3Stable
        { wanPri := 3, event := wanEventType.eventWanStable } true).call = none :=
  listen_stable_no_switch link1AliveLink2ActiveLink3Stable
    { wanPri := 3, event := wanEventType.eventWanStable } true rfl
    (Or.inr ⟨ascending_of_priorityOrder (priorityOrder_of_check (by decide)), mkWan 1 wanState.stateAlive false,
      by simp [link1AliveLink2ActiveLink3Stable], rfl, rfl, by decide⟩)

/-- C6. On a Down event whose priority differs from the priority of the
active link, when no idle Stable link is strictly more preferred than the
active link, no switch occurs: the manager state (every active flag) is
unchanged and `switchActiveWan` is not called, so no command runs. -/
theorem listen_idle_down_no_switch (wm : wanManager) (e : wanEvent) (procOk : Bool)
    (a : Nat) (x : wanWrap)
    (he : e.event = wanEventType.eventWanDown)
    (ha : getActiveWan wm = some (a, x))
    (hne : e.wanPri ≠ x.wan.pri)
    (hno : ∀ v ∈ wm.wans, v.active = false → v.wan.state = wanState.stateStable →
      ¬ v.wan.pri < x.wan.pri) :
    (listen wm e procOk).wm = wm ∧ (listen wm e procOk).call = none := by
  have hl : listen wm e procOk = listenOutcome.skip wm := by
    refine listen_down_idle_skip procOk he ?_ ?_
    · rw [getActiveWanPriority_some ha]
      exact hne
    · intro s stable hs
      obtain ⟨h1, h2, h3⟩ := getStableIdleWan_some hs
      rw [getActiveWanPriority_some ha]
      exact hno stable (List.getElem?_mem h1) h2 h3
  rw [hl]
  exact ⟨rfl, rfl⟩

/-- C6 on the scenario "link 2 active, idle link 3 goes down": nothing
changes. -/
theorem listen_idle_down_no_switch_witness :
    (listen link2ActiveLink3Dead { wanPri := 3, event := wanEventType.eventWanDown } true).wm =
      link2ActiveLink3Dead ∧
    (listen link2ActiveLink3Dead { wanPri := 3, event := wanEventType.eventWanDown } true).call =
      none :=
  listen_idle_down_no_switch link2ActiveLink3Dead
    { wanPri := 3, event := wanEventType.eventWanDown } true 1
    (mkWan 2 wanState.stateStable true) rfl rfl (by decide) (by decide)

/-! ## Failure of the active link with no candidate -/

theorem firstWan_eq_none {p : wanWrap → Bool} {l : List wanWrap}
    (h : ∀ w ∈ l, p w = false) : firstWan p l = none := by
  cases hf : firstWan p l with
  | none => rfl
  | some r =>
    obtain ⟨i, w⟩ := r
    obtain ⟨hw, hp, _⟩ := firstWan_some hf
    rw [h w (List.getElem?_mem hw)] at hp
    exact absurd hp (by decide)

theorem monitorAt_getElem?_self : ∀ (l : List wanWrap) (q : Nat) (inp : monitorInput),
    (monitorAt l q inp).1[q]? =
      (l[q]?).map (fun w => { w with wan := (monitor w.wan inp).1 }) := by
  intro l
  induction l with
  | nil => intro q inp; simp [monitorAt]
  | cons x xs ih =>
    intro q inp
    cases q with
    | zero => simp [monitorAt]
    | succ q => simp [monitorAt, ih]

theorem monitorAt_getElem?_ne : ∀ (l : List wanWrap) (q j : Nat) (inp : monitorInput),
    j ≠ q → (monitorAt l q inp).1[j]? = l[j]? := by
  intro l
  induction l with
  | nil => intro q j inp _; simp [monitorAt]
  | cons x xs ih =>
    intro q j inp hne
    cases q with
    | zero =>
      cases j with
      | zero => exact absurd rfl hne
      | succ j => simp [monitorAt]
    | succ q =>
      cases j with
      | zero => simp [monitorAt]
      | succ j => simp [monitorAt, ih q j inp (by omega)]

theorem monitorAt_event : ∀ (l : List wanWrap) (q : Nat) (inp : monitorInput) (w : wanWrap),
    l[q]? = some w → (monitorAt l q inp).2 = (monitor w.wan inp).2 := by
  intro l
  induction l with
  | nil => intro q inp w h; simp at h
  | cons x xs ih =>
    intro q inp w h
    cases q with
    | zero =>
      simp only [List.getElem?_cons_zero, Option.some.injEq] at h
      subst h
      simp [monitorAt]
    | succ q =>
      simp only [List.getElem?_cons_succ] at h
      simp [monitorAt, ih q inp w h]

theorem deactivate_of_none {wm : wanManager} (h : getActiveWan wm = none) :
    deactivate wm = wm := by
  unfold deactivate
  rw [h]

theorem getActiveWan_eq_none {wm : wanManager} (h : ∀ v ∈ wm.wans, v.active = false) :
    getActiveWan wm = none :=
  firstWan_eq_none (p := fun w : wanWrap => w.active) h

theorem inactive_of_activeCount_zero {wm : wanManager} (h : activeCount wm = 0) :
    ∀ v ∈ wm.wans, v.active = false := by
  intro v hv
  obtain ⟨j, hj⟩ := List.getElem?_of_mem hv
  exact activeCount_zero h j v hj

theorem deactivate_length (wm : wanManager) :
    (deactivate wm).wans.length = wm.wans.length := by
  unfold deactivate
  cases h : getActiveWan wm with
  | none => rfl
  | some r =>
    obtain ⟨a, x⟩ := r
    simp only []
    exact setActive_length _ _ _

/-- With no link flagged active and no link Stable, a link that comes up is
switched to when its Up event is handled and its command succeeds. -/
theorem linkInput_up_no_active {wm : wanManager} {procOk : Bool} {q : Nat} {w : wanWrap}
    (hidle : ∀ v ∈ wm.wans, v.active = false)
    (hnone : ∀ v ∈ wm.wans, v.wan.state ≠ wanState.stateStable ∧
      v.wan.state ≠ wanState.stateAlive)
    (hq : wm.wans[q]? = some w)
    (hexec : execute w.command procOk = some true) :
    (∃ o, (linkInput wm q (monitorInput.conn connEventType.eventConnUp) procOk).call = some o ∧
      o.status = switchStatus.switched ∧ o.executed = some w.command) ∧
    onlyActive (linkInput wm q (monitorInput.conn connEventType.eventConnUp) procOk).wm q ∧
    (linkInput wm q (monitorInput.conn connEventType.eventConnUp) procOk).wm.wans[q]? =
      some { wan := { pri := w.wan.pri, state := wanState.stateAlive }, active := true,
             command := w.command } := by
  have hwidle : w.active = false := hidle w (List.getElem?_mem hq)
  have hev := monitorAt_event wm.wans q (monitorInput.conn connEventType.eventConnUp) w hq
  have hself := monitorAt_getElem?_self wm.wans q (monitorInput.conn connEventType.eventConnUp)
  have hother := fun j hj =>
    monitorAt_getElem?_ne wm.wans q j (monitorInput.conn connEventType.eventConnUp) hj
  cases hm : monitorAt wm.wans q (monitorInput.conn connEventType.eventConnUp) with
  | mk ws ev =>
    rw [hm] at hev hself
    simp only [hm] at hother
    simp only [monitor, wan.set] at hev hself
    subst hev
    rw [hq] at hself
    simp only [Option.map_some'] at hself
    have hws : ∀ (j : Nat) (v : wanWrap), ws[j]? = some v →
        v.active = false ∧ (j ≠ q → v.wan.state ≠ wanState.stateStable ∧
          v.wan.state ≠ wanState.stateAlive) := by
      intro j v hv
      by_cases hjq : j = q
      · subst hjq
        rw [hself] at hv
        simp only [Option.some.injEq] at hv
        subst hv
        exact ⟨hwidle, fun h => absurd rfl h⟩
      · rw [hother j hjq] at hv
        exact ⟨hidle v (List.getElem?_mem hv), fun _ => hnone v (List.getElem?_mem hv)⟩
    have hga : getActiveWan { wans := ws } = none := by
      apply getActiveWan_eq_none
      intro v hv
      obtain ⟨j, hj⟩ := List.getElem?_of_mem hv
      exact (hws j v hj).1
    have hgs : getStableIdleWan { wans := ws } = none := by
      apply firstWan_eq_none
      intro v hv
      obtain ⟨j, hj⟩ := List.getElem?_of_mem hv
      by_cases hjq : j = q
      · subst hjq
        rw [hself] at hj
        simp only [Option.some.injEq] at hj
        subst hj
        simp [wan.isStable, wan.is]
      · have := ((hws j v hj).2 hjq).1
        simp [wan.isStable, wan.is, this]
    have hgl : getAliveIdleWan { wans := ws } =
        some (q, { w with wan := { w.wan with state := wanState.stateAlive } }) := by
      refine firstWan_of_first hself (by simp [hwidle, wan.isAlive, wan.is]) ?_
      intro j v hj hv
      have := ((hws j v hv).2 (by omega)).2
      simp [wan.isAlive, wan.is, this]
    have hr : replacement (deactivate { wans := ws }) =
        some (q, { w with wan := { w.wan with state := wanState.stateAlive } }) := by
      rw [deactivate_of_none hga]
      unfold replacement
      rw [hgs]
      exact hgl
    have hl : linkInput wm q (monitorInput.conn connEventType.eventConnUp) procOk =
        listenOutcome.switch { wans := ws } procOk := by
      unfold linkInput
      rw [hm]
      exact listen_up_none procOk rfl hga
    have hsw := switchActiveWan_switched hr hexec
    rw [deactivate_of_none hga] at hsw
    rw [hl]
    simp only [listenOutcome.switch, hsw]
    refine ⟨⟨_, rfl, rfl, rfl⟩, ?_, ?_⟩
    · intro j v hv
      simp only [] at hv
      by_cases hjq : j = q
      · subst hjq
        rw [setActive_getElem?_self, hself] at hv
        simp only [Option.map_some', Option.some.injEq] at hv
        subst hv
        simp
      · rw [setActive_getElem?_ne _ _ _ _ hjq] at hv
        simp [(hws j v hv).1, hjq]
    · rw [setActive_getElem?_self, hself]
      rfl

/-- C7. When a Down event arrives from the active link and no link is Stable
or Alive, the switch attempt ends with the no-candidate error, no command is
run, and afterwards no link is flagged active; when a link `q` then comes up
and its Up event is handled with a succeeding command, `q` (now Alive) becomes
the single active link. -/
theorem listen_active_down_no_candidate (wm : wanManager) (procOk procOk2 : Bool)
    (a q : Nat) (x wq : wanWrap)
    (hone : activeCount wm ≤ 1)
    (ha : getActiveWan wm = some (a, x))
    (hnone : ∀ v ∈ wm.wans, v.wan.state ≠ wanState.stateStable ∧
      v.wan.state ≠ wanState.stateAlive)
    (hq : wm.wans[q]? = some wq)
    (hexec : execute wq.command procOk2 = some true) :
    (∃ o, (listen wm { wanPri := x.wan.pri, event := wanEventType.eventWanDown } procOk).call =
        some o ∧ o.status = switchStatus.errNoCandidate ∧ o.executed = none ∧
        o.selected = none) ∧
    (∀ v ∈ (listen wm { wanPri := x.wan.pri, event := wanEventType.eventWanDown } procOk).wm.wans,
      v.active = false) ∧
    (∃ o, (linkInput
        (listen wm { wanPri := x.wan.pri, event := wanEventType.eventWanDown } procOk).wm
        q (monitorInput.conn connEventType.eventConnUp) procOk2).call = some o ∧
      o.status = switchStatus.switched ∧ o.executed = some wq.command) ∧
    onlyActive (linkInput
        (listen wm { wanPri := x.wan.pri, event := wanEventType.eventWanDown } procOk).wm
        q (monitorInput.conn connEventType.eventConnUp) procOk2).wm q ∧
    (linkInput
        (listen wm { wanPri := x.wan.pri, event := wanEventType.eventWanDown } procOk).wm
        q (monitorInput.conn connEventType.eventConnUp) procOk2).wm.wans[q]? =
      some { wan := { pri := wq.wan.pri, state := wanState.stateAlive }, active := true,
             command := wq.command } := by
  have hidle1 := inactive_of_activeCount_zero (activeCount_deactivate hone)
  have hnone1 : ∀ v ∈ (deactivate wm).wans, v.wan.state ≠ wanState.stateStable ∧
      v.wan.state ≠ wanState.stateAlive := by
    intro v hv
    obtain ⟨j, hj⟩ := List.getElem?_of_mem hv
    obtain ⟨u, hu, huv, _, _, _⟩ := deactivate_getElem? hj
    rw [huv]
    exact hnone u (List.getElem?_mem hu)
  have hr : replacement (deactivate wm) = none := by
    unfold replacement
    have h1 : getStableIdleWan (deactivate wm) = none := by
      apply firstWan_eq_none
      intro v hv
      simp [wan.isStable, wan.is, (hnone1 v hv).1]
    have h2 : getAliveIdleWan (deactivate wm) = none := by
      apply firstWan_eq_none
      intro v hv
      simp [wan.isAlive, wan.is, (hnone1 v hv).2]
    rw [h1]
    exact h2
  have hl : listen wm { wanPri := x.wan.pri, event := wanEventType.eventWanDown } procOk =
      listenOutcome.switch wm procOk :=
    listen_down_active procOk rfl (getActiveWanPriority_some ha).symm
  have hwm : (listen wm { wanPri := x.wan.pri, event := wanEventType.eventWanDown } procOk).wm =
      deactivate wm := by
    rw [hl]
    simp only [listenOutcome.switch, switchActiveWan_none procOk hr]
  obtain ⟨v, hv⟩ : ∃ v, (deactivate wm).wans[q]? = some v := by
    have hlt : q < (deactivate wm).wans.length := by
      rw [deactivate_length]
      exact getElem?_lt_length hq
    exact ⟨_, List.getElem?_eq_getElem hlt⟩
  obtain ⟨u, hu, huv, hcmd, _, _⟩ := deactivate_getElem? hv
  rw [hq] at hu
  simp only [Option.some.injEq] at hu
  subst hu
  have hexec1 : execute v.command procOk2 = some true := by
    rw [hcmd]
    exact hexec
  obtain ⟨h1, h2, h3⟩ := linkInput_up_no_active hidle1 hnone1 hv hexec1
  rw [hwm]
  refine ⟨?_, hidle1, ?_, h2, ?_⟩
  · rw [hl]
    simp only [listenOutcome.switch, switchActiveWan_none procOk hr]
    exact ⟨_, rfl, rfl, rfl, rfl⟩
  · rw [← hcmd]
    exact h1
  · rw [← hcmd, ← huv]
    exact h3

/-- C7 on its example: links 1 and 3 idle and not up, link 2 active; Down
from link 2, then link 1 comes up and its Up event is handled: link 1 ends as
the single active link. -/
theorem listen_active_down_no_candidate_witness :
    activeCount link2ActiveDown ≤ 1 ∧
    (∀ v ∈ (listen link2ActiveDown
        { wanPri := 2, event := wanEventType.eventWanDown } true).wm.wans, v.active = false) ∧
    onlyActive (linkInput
        (listen link2ActiveDown { wanPri := 2, event := wanEventType.eventWanDown } true).wm
        0 (monitorInput.conn connEventType.eventConnUp) true).wm 0 :=
  have h := listen_active_down_no_candidate link2ActiveDown true true 1 0
    (mkWan 2 wanState.stateDead true) (mkWan 1 wanState.stateInit false)
    (by decide) rfl (by decide) rfl rfl
  ⟨by decide, h.2.1, h.2.2.2.1⟩

/-! ## Failure of the activation command -/

theorem replacement_some {wm : wanManager} {i : Nat} {w : wanWrap}
    (h : replacement wm = some (i, w)) :
    wm.wans[i]? = some w ∧ w.active = false ∧
      (w.wan.state = wanState.stateStable ∨ w.wan.state = wanState.stateAlive) := by
  unfold replacement at h
  cases hs : getStableIdleWan wm with
  | some r =>
    rw [hs] at h
    simp only [Option.some.injEq] at h
    subst h
    obtain ⟨h1, h2, h3⟩ := getStableIdleWan_some hs
    exact ⟨h1, h2, Or.inl h3⟩
  | none =>
    rw [hs] at h
    obtain ⟨h1, h2, h3⟩ := getAliveIdleWan_some h
    exact ⟨h1, h2, Or.inr h3⟩

/-- C8. The switch is not atomic on command failure: from a manager state
with exactly one active link in which `switchActiveWan` selects a replacement
whose command fails, the call ends with the command-failure error, the flag of
the previously active link has been cleared, the replacement is not flagged
active, and no link at all is flagged active afterwards. -/
theorem switchActiveWan_command_failure (wm : wanManager) (procOk : Bool)
    (i : Nat) (w : wanWrap)
    (hone : activeCount wm = 1)
    (hsel : (switchActiveWan wm procOk).selected = some (i, w))
    (hfail : execute w.command procOk = some false) :
    (switchActiveWan wm procOk).status = switchStatus.errCommandFailed ∧
    (switchActiveWan wm procOk).executed = some w.command ∧
    (∃ a x, getActiveWan wm = some (a, x) ∧
      (switchActiveWan wm procOk).wm.wans[a]? = some { x with active := false }) ∧
    ((switchActiveWan wm procOk).wm.wans[i]? = some w ∧ w.active = false) ∧
    (∀ v ∈ (switchActiveWan wm procOk).wm.wans, v.active = false) ∧
    activeCount (switchActiveWan wm procOk).wm = 0 := by
  rw [switchActiveWan_selected] at hsel
  have h0 := activeCount_deactivate (le_of_eq hone)
  obtain ⟨hw, hwidle, _⟩ := replacement_some hsel
  rw [switchActiveWan_failed hsel hfail]
  refine ⟨rfl, rfl, ?_, ⟨hw, hwidle⟩, inactive_of_activeCount_zero h0, h0⟩
  cases hg : getActiveWan wm with
  | none =>
    have : activeCount wm = 0 := by
      simp only [activeCount]
      rw [List.countP_eq_zero]
      intro v hv
      simpa using firstWan_none hg v hv
    omega
  | some r =>
    obtain ⟨a, x⟩ := r
    obtain ⟨hx, _, _⟩ := firstWan_some hg
    refine ⟨a, x, rfl, ?_⟩
    simp only [deactivate, hg]
    rw [setActive_getElem?_self, hx]
    rfl

/-- C8 on "link 2 active, link 1 idle and Stable, command of link 1 fails":
no link is flagged active afterwards. -/
theorem switchActiveWan_command_failure_witness :
    activeCount link1StableLink2Active = 1 ∧
    (switchActiveWan link1StableLink2Active false).status = switchStatus.errCommandFailed ∧
    activeCount (switchActiveWan link1StableLink2Active false).wm = 0 :=
  have h := switchActiveWan_command_failure link1StableLink2Active false 0
    (mkWan 1 wanState.stateStable false) (by decide) rfl rfl
  ⟨by decide, h.1, h.2.2.2.2.2⟩

/-! ## No redundant switch -/

/-- C9. The decision predicates suppress redundant switches: in a manager
state with links in ascending priority order and an active link A such that no
idle Stable or Alive link is more preferred than A, every lifecycle event
other than a Down from A itself, a Stable event only for a link that is
Stable, leaves the manager state (every active flag) unchanged and makes no
call of `switchActiveWan`, so no command runs. -/
theorem listen_no_redundant_switch (wm : wanManager) (e : wanEvent) (procOk : Bool)
    (a : Nat) (x : wanWrap)
    (hord : ascending wm)
    (ha : getActiveWan wm = some (a, x))
    (hopt : ∀ v ∈ wm.wans, v.active = false →
      (v.wan.state = wanState.stateStable ∨ v.wan.state = wanState.stateAlive) →
      ¬ v.wan.pri < x.wan.pri)
    (hnot : ¬ (e.event = wanEventType.eventWanDown ∧ e.wanPri = x.wan.pri))
    (hcons : e.event = wanEventType.eventWanStable →
      ∃ v ∈ wm.wans, v.wan.pri = e.wanPri ∧ v.wan.state = wanState.stateStable) :
    (listen wm e procOk).wm = wm ∧ (listen wm e procOk).call = none := by
  have hl : listen wm e procOk = listenOutcome.skip wm := by
    cases he : e.event with
    | eventWanDown =>
      refine listen_down_idle_skip procOk he ?_ ?_
      · rw [getActiveWanPriority_some ha]
        exact fun hc => hnot ⟨he, hc⟩
      · intro s stable hs
        obtain ⟨h1, h2, h3⟩ := getStableIdleWan_some hs
        rw [getActiveWanPriority_some ha]
        exact hopt stable (List.getElem?_mem h1) h2 (Or.inl h3)
    | eventWanUp => exact listen_up_active procOk he ha
    | eventWanStable =>
      refine listen_stable_skip procOk he (Or.inl ?_)
      rw [getActiveWanPriority_some ha]
      intro hlt
      obtain ⟨v, hv, hvpri, hvst⟩ := hcons he
      obtain ⟨k, hk⟩ := List.getElem?_of_mem hv
      obtain ⟨hx, _, hfirst⟩ := firstWan_some ha
      rw [← hvpri] at hlt
      have hka := (ascending_lt hord hk hx).mp hlt
      have hvidle : v.active = false := hfirst k v hka hk
      exact hopt v hv hvidle (Or.inl hvst) hlt
  rw [hl]
  exact ⟨rfl, rfl⟩

/-- C9 on "link 2 active, link 1 down, link 3 reports Stable": nothing
changes. -/
theorem listen_no_redundant_switch_witness :
    (listen link2ActiveLink3Stable
        { wanPri := 3, event := wanEventType.eventWanStable } true).wm =
      link2ActiveLink3Stable ∧
    (listen link2ActiveLink3Stable
        { wanPri := 3, event := wanEventType.eventWanStable } true).call = none :=
  listen_no_redundant_switch link2ActiveLink3Stable
    { wanPri := 3, event := wanEventType.eventWanStable } true 1
    (mkWan 2 wanState.stateStable true)
    (ascending_of_priorityOrder (priorityOrder_of_check (by decide))) rfl (by decide) (by decide)
    (fun _ => ⟨mkWan 3 wanState.stateStable false, by simp [link2ActiveLink3Stable], rfl, rfl⟩)

/-! ## Down events of one link -/

theorem monitorRun_cons (w : wan) (i : monitorInput) (is : List monitorInput) :
    monitorRun w (i :: is) =
      { before := w.state, input := i, after := (monitor w i).1.state,
        emitted := (monitor w i).2.map (fun e => e.event) } ::
        monitorRun (monitor w i).1 is := rfl

theorem monitorRun_length : ∀ (ins : List monitorInput) (w : wan),
    (monitorRun w ins).length = ins.length := by
  intro ins
  induction ins with
  | nil => intro w; rfl
  | cons i is ih => intro w; simp [monitorRun_cons, ih]

/-- One iteration emits Down exactly when it moves the state to Dead from a
state other than Dead. -/
theorem monitor_down_iff (w : wan) (i : monitorInput) :
    ((monitor w i).2.map (fun e => e.event) = some wanEventType.eventWanDown ↔
      (w.state ≠ wanState.stateDead ∧ (monitor w i).1.state = wanState.stateDead)) := by
  obtain ⟨pri, st⟩ := w
  cases i with
  | conn ev => cases ev <;> cases st <;> simp [monitor, wan.is, wan.set]
  | minUptimeElapsed => cases st <;> simp [monitor, wan.is, wan.set]

/-- Iterations that do nothing on a Dead link: everything but a
ConnectivityUp, which emits Up. -/
theorem monitor_dead (w : wan) (i : monitorInput) (hd : w.state = wanState.stateDead) :
    ((monitor w i).2.map (fun e => e.event) = some wanEventType.eventWanUp) ∨
    ((monitor w i).2 = none ∧ (monitor w i).1.state = wanState.stateDead) := by
  obtain ⟨pri, st⟩ := w
  simp only at hd
  subst hd
  cases i with
  | conn ev => cases ev <;> simp [monitor, wan.is, wan.set]
  | minUptimeElapsed => simp [monitor, wan.is, wan.set]

theorem monitorRun_record : ∀ (ins : List monitorInput) (w : wan) (k : Nat)
    (r : monitorRecord), (monitorRun w ins)[k]? = some r →
    ∃ (w' : wan) (i : monitorInput), r.before = w'.state ∧ r.input = i ∧
      r.after = (monitor w' i).1.state ∧
      r.emitted = (monitor w' i).2.map (fun e => e.event) := by
  intro ins
  induction ins with
  | nil => intro w k r h; simp [monitorRun] at h
  | cons i is ih =>
    intro w k r h
    rw [monitorRun_cons] at h
    cases k with
    | zero =>
      simp only [List.getElem?_cons_zero, Option.some.injEq] at h
      subst h
      exact ⟨w, i, rfl, rfl, rfl, rfl⟩
    | succ k =>
      simp only [List.getElem?_cons_succ] at h
      exact ih _ k r h

/-- From a Dead link, a step that emits Down is preceded by a step that
emits Up. -/
theorem monitorRun_dead_up_before_down : ∀ (ins : List monitorInput) (w : wan) (j : Nat)
    (rj : monitorRecord), w.state = wanState.stateDead →
    (monitorRun w ins)[j]? = some rj → rj.emitted = some wanEventType.eventWanDown →
    ∃ (k : Nat) (rk : monitorRecord), k < j ∧ (monitorRun w ins)[k]? = some rk ∧
      rk.emitted = some wanEventType.eventWanUp := by
  intro ins
  induction ins with
  | nil => intro w j rj _ h; simp [monitorRun] at h
  | cons i is ih =>
    intro w j rj hd h hdown
    rw [monitorRun_cons] at h ⊢
    cases j with
    | zero =>
      simp only [List.getElem?_cons_zero, Option.some.injEq] at h
      subst h
      simp only at hdown
      exact absurd hd ((monitor_down_iff w i).mp hdown).1
    | succ j =>
      simp only [List.getElem?_cons_succ] at h
      rcases monitor_dead w i hd with hup | ⟨_, hstay⟩
      · exact ⟨0, _, by omega, List.getElem?_cons_zero, hup⟩
      · obtain ⟨k, rk, hk, hrk, hkup⟩ := ih _ j rj hstay h hdown
        exact ⟨k + 1, rk, by omega, by simpa using hrk, hkup⟩

theorem monitorRun_up_between_downs : ∀ (ins : List monitorInput) (w : wan) (i j : Nat)
    (ri rj : monitorRecord), i < j →
    (monitorRun w ins)[i]? = some ri → (monitorRun w ins)[j]? = some rj →
    ri.emitted = some wanEventType.eventWanDown →
    rj.emitted = some wanEventType.eventWanDown →
    ∃ (k : Nat) (rk : monitorRecord), i < k ∧ k < j ∧ (monitorRun w ins)[k]? = some rk ∧
      rk.emitted = some wanEventType.eventWanUp := by
  intro ins
  induction ins with
  | nil => intro w i j ri rj _ h; simp [monitorRun] at h
  | cons inp is ih =>
    intro w i j ri rj hij hi hj hdi hdj
    rw [monitorRun_cons] at hi hj ⊢
    cases j with
    | zero => omega
    | succ j =>
      simp only [List.getElem?_cons_succ] at hj
      cases i with
      | zero =>
        simp only [List.getElem?_cons_zero, Option.some.injEq] at hi
        subst hi
        simp only at hdi
        have hdead := ((monitor_down_iff w inp).mp hdi).2
        obtain ⟨k, rk, hk, hrk, hkup⟩ :=
          monitorRun_dead_up_before_down is _ j rj hdead hj hdj
        exact ⟨k + 1, rk, by omega, by omega, by simpa using hrk, hkup⟩
      | succ i =>
        simp only [List.getElem?_cons_succ] at hi
        obtain ⟨k, rk, hk1, hk2, hrk, hkup⟩ :=
          ih _ i j ri rj (by omega) hi hj hdi hdj
        exact ⟨k + 1, rk, by omega, by omega, by simpa using hrk, hkup⟩

/-- C10. For every finite sequence of inputs fed to the monitor of one link
starting in Init, every input is handled, and a Down event is emitted exactly
on the steps that move the state to Dead from a state other than Dead; so a
ConnectivityDown received while Dead emits nothing and leaves the state Dead,
and between any two steps that emit Down some step emits Up. -/
theorem monitorRun_down_events (pri : Int) (ins : List monitorInput) :
    (monitorRun (newWan pri) ins).length = ins.length ∧
    (∀ (k : Nat) (r : monitorRecord), (monitorRun (newWan pri) ins)[k]? = some r →
      (r.emitted = some wanEventType.eventWanDown ↔
        (r.before ≠ wanState.stateDead ∧ r.after = wanState.stateDead)) ∧
      (r.input = monitorInput.conn connEventType.eventConnDown →
        r.before = wanState.stateDead →
        r.emitted = none ∧ r.after = wanState.stateDead)) ∧
    (∀ (i j : Nat) (ri rj : monitorRecord), i < j →
      (monitorRun (newWan pri) ins)[i]? = some ri →
      (monitorRun (newWan pri) ins)[j]? = some rj →
      ri.emitted = some wanEventType.eventWanDown →
      rj.emitted = some wanEventType.eventWanDown →
      ∃ (k : Nat) (rk : monitorRecord), i < k ∧ k < j ∧
        (monitorRun (newWan pri) ins)[k]? = some rk ∧
        rk.emitted = some wanEventType.eventWanUp) := by
  refine ⟨monitorRun_length ins _, ?_, monitorRun_up_between_downs ins _⟩
  intro k r hr
  obtain ⟨w', i, hb, hi, ha, he⟩ := monitorRun_record ins _ k r hr
  rw [hb, ha, he]
  refine ⟨monitor_down_iff w' i, ?_⟩
  intro hin hdead
  rw [hi] at hin
  subst hin
  obtain ⟨p, st⟩ := w'
  simp only at hdead
  subst hdead
  simp [monitor, wan.is]

/-- C10 on a flapping link: the Down events of steps 0 and 4 are separated
by an Up event. -/
theorem monitorRun_down_events_witness :
    ∃ (k : Nat) (rk : monitorRecord), 0 < k ∧ k < 4 ∧
      (monitorRun (newWan 1) flappingInputs)[k]? = some rk ∧
      rk.emitted = some wanEventType.eventWanUp :=
  (monitorRun_down_events 1 flappingInputs).2.2 0 4
    { before := wanState.stateInit, input := monitorInput.conn connEventType.eventConnDown,
      after := wanState.stateDead, emitted := some wanEventType.eventWanDown }
    { before := wanState.stateStable, input := monitorInput.conn connEventType.eventConnDown,
      after := wanState.stateDead, emitted := some wanEventType.eventWanDown }
    (by decide) rfl rfl rfl rfl

/-! ## Stable events of one link -/

/-- One iteration emits Stable exactly when it is a firing of the stability
timer on an Alive link, and exactly when it moves the state to Stable. -/
theorem monitor_stable_iff (w : wan) (i : monitorInput) :
    ((monitor w i).2.map (fun e => e.event) = some wanEventType.eventWanStable ↔
      (i = monitorInput.minUptimeElapsed ∧ w.state = wanState.stateAlive)) ∧
    ((monitor w i).2.map (fun e => e.event) = some wanEventType.eventWanStable ↔
      (w.state ≠ wanState.stateStable ∧ (monitor w i).1.state = wanState.stateStable)) := by
  obtain ⟨pri, st⟩ := w
  cases i with
  | conn ev => cases ev <;> cases st <;> simp [monitor, wan.is, wan.set]
  | minUptimeElapsed => cases st <;> simp [monitor, wan.is, wan.set]

/-- A firing of the stability timer on a link that is not Alive does
nothing. -/
theorem monitor_timer_idle (w : wan) (h : w.state ≠ wanState.stateAlive) :
    monitor w monitorInput.minUptimeElapsed = (w, none) := by
  obtain ⟨pri, st⟩ := w
  simp only at h
  simp [monitor, wan.is, h]

/-- On a link that is not Alive an iteration either emits Up or emits
nothing that is Stable and leaves the link not Alive. -/
theorem monitor_not_alive (w : wan) (i : monitorInput) (h : w.state ≠ wanState.stateAlive) :
    ((monitor w i).2.map (fun e => e.event) = some wanEventType.eventWanUp) ∨
    ((monitor w i).1.state ≠ wanState.stateAlive) := by
  obtain ⟨pri, st⟩ := w
  simp only at h
  cases i with
  | conn ev => cases ev <;> cases st <;> simp [monitor, wan.is, wan.set] at h ⊢
  | minUptimeElapsed => cases st <;> simp [monitor, wan.is, wan.set] at h ⊢

/-- From a link that is not Alive, a step that emits Stable is preceded by a
step that emits Up. -/
theorem monitorRun_up_before_stable : ∀ (ins : List monitorInput) (w : wan) (j : Nat)
    (rj : monitorRecord), w.state ≠ wanState.stateAlive →
    (monitorRun w ins)[j]? = some rj → rj.emitted = some wanEventType.eventWanStable →
    ∃ (k : Nat) (rk : monitorRecord), k < j ∧ (monitorRun w ins)[k]? = some rk ∧
      rk.emitted = some wanEventType.eventWanUp := by
  intro ins
  induction ins with
  | nil => intro w j rj _ h; simp [monitorRun] at h
  | cons i is ih =>
    intro w j rj hna h hst
    rw [monitorRun_cons] at h ⊢
    cases j with
    | zero =>
      simp only [List.getElem?_cons_zero, Option.some.injEq] at h
      subst h
      simp only at hst
      exact absurd ((monitor_stable_iff w i).1.mp hst).2 hna
    | succ j =>
      simp only [List.getElem?_cons_succ] at h
      rcases monitor_not_alive w i hna with hup | hstay
      · exact ⟨0, _, by omega, List.getElem?_cons_zero, hup⟩
      · obtain ⟨k, rk, hk, hrk, hkup⟩ := ih _ j rj hstay h hst
        exact ⟨k + 1, rk, by omega, by simpa using hrk, hkup⟩

theorem monitorRun_up_between_stables : ∀ (ins : List monitorInput) (w : wan) (i j : Nat)
    (ri rj : monitorRecord), i < j →
    (monitorRun w ins)[i]? = some ri → (monitorRun w ins)[j]? = some rj →
    ri.emitted = some wanEventType.eventWanStable →
    rj.emitted = some wanEventType.eventWanStable →
    ∃ (k : Nat) (rk : monitorRecord), i < k ∧ k < j ∧ (monitorRun w ins)[k]? = some rk ∧
      rk.emitted = some wanEventType.eventWanUp := by
  intro ins
  induction ins with
  | nil => intro w i j ri rj _ h; simp [monitorRun] at h
  | cons inp is ih =>
    intro w i j ri rj hij hi hj hsi hsj
    rw [monitorRun_cons] at hi hj ⊢
    cases j with
    | zero => omega
    | succ j =>
      simp only [List.getElem?_cons_succ] at hj
      cases i with
      | zero =>
        simp only [List.getElem?_cons_zero, Option.some.injEq] at hi
        subst hi
        simp only at hsi
        have hstable := ((monitor_stable_iff w inp).2.mp hsi).2
        have hna : (monitor w inp).1.state ≠ wanState.stateAlive := by
          rw [hstable]
          decide
        obtain ⟨k, rk, hk, hrk, hkup⟩ :=
          monitorRun_up_before_stable is _ j rj hna hj hsj
        exact ⟨k + 1, rk, by omega, by omega, by simpa using hrk, hkup⟩
      | succ i =>
        simp only [List.getElem?_cons_succ] at hi
        obtain ⟨k, rk, hk1, hk2, hrk, hkup⟩ :=
          ih _ i j ri rj (by omega) hi hj hsi hsj
        exact ⟨k + 1, rk, by omega, by omega, by simpa using hrk, hkup⟩

/-- C11. For every link and every finite sequence of inputs to its monitor,
a step emits Stable exactly when it is a firing of the stability timer taken
while the state is Alive, and exactly on the steps that move the state to
Stable; a firing of the timer in any other state changes nothing and emits
nothing; and between any two steps that emit Stable some step emits Up. -/
theorem monitorRun_stable_events (w : wan) (ins : List monitorInput) :
    (monitorRun w ins).length = ins.length ∧
    (∀ (k : Nat) (r : monitorRecord), (monitorRun w ins)[k]? = some r →
      (r.emitted = some wanEventType.eventWanStable ↔
        (r.input = monitorInput.minUptimeElapsed ∧ r.before = wanState.stateAlive)) ∧
      (r.emitted = some wanEventType.eventWanStable ↔
        (r.before ≠ wanState.stateStable ∧ r.after = wanState.stateStable)) ∧
      (r.input = monitorInput.minUptimeElapsed → r.before ≠ wanState.stateAlive →
        r.after = r.before ∧ r.emitted = none)) ∧
    (∀ (i j : Nat) (ri rj : monitorRecord), i < j →
      (monitorRun w ins)[i]? = some ri → (monitorRun w ins)[j]? = some rj →
      ri.emitted = some wanEventType.eventWanStable →
      rj.emitted = some wanEventType.eventWanStable →
      ∃ (k : Nat) (rk : monitorRecord), i < k ∧ k < j ∧
        (monitorRun w ins)[k]? = some rk ∧
        rk.emitted = some wanEventType.eventWanUp) := by
  refine ⟨monitorRun_length ins w, ?_, monitorRun_up_between_stables ins w⟩
  intro k r hr
  obtain ⟨w', i, hb, hi, ha, he⟩ := monitorRun_record ins w k r hr
  rw [hb, ha, he, hi]
  refine ⟨(monitor_stable_iff w' i).1, (monitor_stable_iff w' i).2, ?_⟩
  intro hin hna
  subst hin
  rw [monitor_timer_idle w' hna]
  exact ⟨rfl, rfl⟩

/-- C11 on a link that comes up twice: the Stable events of steps 1 and 4
are separated by an Up event. -/
theorem monitorRun_stable_events_witness :
    ∃ (k : Nat) (rk : monitorRecord), 1 < k ∧ k < 4 ∧
      (monitorRun (newWan 1) upStableUpStableInputs)[k]? = some rk ∧
      rk.emitted = some wanEventType.eventWanUp :=
  (monitorRun_stable_events (newWan 1) upStableUpStableInputs).2.2 1 4
    { before := wanState.stateAlive, input := monitorInput.minUptimeElapsed,
      after := wanState.stateStable, emitted := some wanEventType.eventWanStable }
    { before := wanState.stateAlive, input := monitorInput.minUptimeElapsed,
      after := wanState.stateStable, emitted := some wanEventType.eventWanStable }
    (by decide) rfl rfl rfl rfl

/-! ## Transitions between Dead and Stable -/

/-- C12 as stated fails. A link that comes up, becomes Stable and then loses
its connection goes from Stable to Dead in one transition. -/
theorem monitorRun_stable_to_dead_directly :
    (monitorRun (newWan 1) upStableDownInputs)[2]? =
      some { before := wanState.stateStable,
             input := monitorInput.conn connEventType.eventConnDown,
             after := wanState.stateDead,
             emitted := some wanEventType.eventWanDown } := rfl

/-- C12, amended. For every link and every finite sequence of inputs to its
monitor, no single transition takes the state from Dead to Stable: a step
that ends in Stable starts in Alive or in Stable, so every change from Dead
to Stable passes through Alive. -/
theorem monitorRun_no_dead_to_stable (w : wan) (ins : List monitorInput) :
    ∀ (k : Nat) (r : monitorRecord), (monitorRun w ins)[k]? = some r →
      ¬ (r.before = wanState.stateDead ∧ r.after = wanState.stateStable) ∧
      (r.after = wanState.stateStable →
        r.before = wanState.stateAlive ∨ r.before = wanState.stateStable) := by
  intro k r hr
  obtain ⟨w', i, hb, _, ha, _⟩ := monitorRun_record ins w k r hr
  rw [hb, ha]
  obtain ⟨pri, st⟩ := w'
  cases i with
  | conn ev => cases ev <;> cases st <;> simp [monitor, wan.is, wan.set]
  | minUptimeElapsed => cases st <;> simp [monitor, wan.is, wan.set]

/-! ## ConnectivityUp -/

/-- C18. In every health state, handling a ConnectivityUp input sets the
state to Alive, keeps the priority, and emits one Up event carrying the
priority of the link: also when the state was already Alive, and a Stable
link is demoted to Alive. -/
theorem monitor_connUp (w : wan) :
    monitor w (monitorInput.conn connEventType.eventConnUp) =
      ({ pri := w.pri, state := wanState.stateAlive },
        some { wanPri := w.pri, event := wanEventType.eventWanUp }) ∧
    (∀ (pri : Int) (s : wanState),
      (monitor { pri := pri, state := s }
          (monitorInput.conn connEventType.eventConnUp)).1.state = wanState.stateAlive ∧
      (monitor { pri := pri, state := s }
          (monitorInput.conn connEventType.eventConnUp)).2 =
        some { wanPri := pri, event := wanEventType.eventWanUp }) := by
  refine ⟨rfl, ?_⟩
  intro pri s
  exact ⟨rfl, rfl⟩

/-- C12, amended, on "up, timer, down": the step into Stable starts in
Alive. -/
theorem monitorRun_no_dead_to_stable_witness :
    (monitorRun (newWan 1) upStableDownInputs)[1]? =
      some { before := wanState.stateAlive, input := monitorInput.minUptimeElapsed,
             after := wanState.stateStable, emitted := some wanEventType.eventWanStable } ∧
    ((wanState.stateStable = wanState.stateStable →
      wanState.stateAlive = wanState.stateAlive ∨ wanState.stateAlive = wanState.stateStable)) :=
  ⟨rfl, (monitorRun_no_dead_to_stable (newWan 1) upStableDownInputs 1
    { before := wanState.stateAlive, input := monitorInput.minUptimeElapsed,
      after := wanState.stateStable, emitted := some wanEventType.eventWanStable } rfl).2⟩

/-! ## Validation of the configuration -/

theorem validateLoop_ok : ∀ (ss : List server) (i : Nat) (ad : Bool),
    (∀ s ∈ ss, s.Command ≠ []) →
    validateLoop (ss.map some) i ad =
      some (Except.ok (ad || ss.any (fun s => s.IsActive))) := by
  intro ss
  induction ss with
  | nil => intro i ad _; simp [validateLoop]
  | cons x xs ih =>
    intro i ad h
    have hx : x.Command ≠ [] := h x (List.mem_cons_self x xs)
    have hxl : ¬ x.Command.length = 0 := by
      intro hc
      exact hx (List.length_eq_zero.mp hc)
    simp only [List.map_cons, validateLoop]
    rw [if_neg hxl, ih (i + 1) _ (fun s hs => h s (List.mem_cons_of_mem x hs))]
    cases hxa : x.IsActive <;> cases ad <;> simp [List.any_cons, hxa]

theorem validateLoop_error : ∀ (ss : List server) (i : Nat) (ad : Bool) (k : Nat)
    (s : server), ss[k]? = some s → s.Command = [] →
    (∀ (j : Nat) (t : server), j < k → ss[j]? = some t → t.Command ≠ []) →
    validateLoop (ss.map some) i ad =
      some (Except.error (validateError.commandNotDefined (i + k + 1))) := by
  intro ss
  induction ss with
  | nil => intro i ad k s h; simp at h
  | cons x xs ih =>
    intro i ad k s hk hs hfirst
    cases k with
    | zero =>
      simp only [List.getElem?_cons_zero, Option.some.injEq] at hk
      subst hk
      simp [validateLoop, hs]
    | succ k =>
      simp only [List.getElem?_cons_succ] at hk
      have hx : x.Command ≠ [] := hfirst 0 x (by omega) (by simp)
      have hxl : ¬ x.Command.length = 0 := by
        intro hc
        exact hx (List.length_eq_zero.mp hc)
      simp only [List.map_cons, validateLoop]
      rw [if_neg hxl, ih (i + 1) _ k s hk hs
        (fun j t hj ht => hfirst (j + 1) t (by omega) (by simpa using ht))]
      congr 3
      omega

/-- The first server without a command, when there is one. -/
theorem exists_first_empty : ∀ (ss : List server), (∃ s ∈ ss, s.Command = []) →
    ∃ (k : Nat) (s : server), ss[k]? = some s ∧ s.Command = [] ∧
      ∀ (j : Nat) (t : server), j < k → ss[j]? = some t → t.Command ≠ [] := by
  intro ss
  induction ss with
  | nil => rintro ⟨s, hs, _⟩; simp at hs
  | cons x xs ih =>
    rintro ⟨s, hs, hc⟩
    by_cases hx : x.Command = []
    · exact ⟨0, x, by simp, hx, fun j t hj => by omega⟩
    · rcases List.mem_cons.mp hs with rfl | hs
      · exact absurd hc hx
      · obtain ⟨k, t, hk, ht, hfirst⟩ := ih ⟨s, hs, hc⟩
        refine ⟨k + 1, t, by simpa using hk, ht, ?_⟩
        intro j u hj hu
        cases j with
        | zero =>
          simp only [List.getElem?_cons_zero, Option.some.injEq] at hu
          subst hu
          exact hx
        | succ j =>
          simp only [List.getElem?_cons_succ] at hu
          exact hfirst j u (by omega) hu

/-- What `validate` returns on a configuration whose entries are all present,
`ss` being the servers they point at, by cases. -/
theorem validate_cases (c : config) (ss : List server) (hss : c.Servers = ss.map some) :
    (ss.length < 2 ∧ c.validate = some (Except.error validateError.tooFewWans)) ∨
    (2 ≤ ss.length ∧ ∃ (k : Nat) (s : server), ss[k]? = some s ∧
      s.Command = [] ∧
      (∀ (j : Nat) (t : server), j < k → ss[j]? = some t → t.Command ≠ []) ∧
      c.validate = some (Except.error (validateError.commandNotDefined (k + 1)))) ∨
    (2 ≤ ss.length ∧ (∀ s ∈ ss, s.Command ≠ []) ∧
      (∀ s ∈ ss, s.IsActive = false) ∧
      c.validate = some (Except.error validateError.activeNotDefined)) ∨
    (2 ≤ ss.length ∧ (∀ s ∈ ss, s.Command ≠ []) ∧
      (∃ s ∈ ss, s.IsActive = true) ∧ c.validate = some (Except.ok ())) := by
  obtain ⟨pg, mu, srv⟩ := c
  simp only at hss
  subst hss
  by_cases hlen : ss.length < 2
  · left
    exact ⟨hlen, by simp [config.validate, hlen]⟩
  · right
    have hge : 2 ≤ ss.length := by omega
    have hnl : ¬ (List.map some ss).length < 2 := by simpa using hlen
    by_cases hemp : ∃ s ∈ ss, s.Command = []
    · left
      obtain ⟨k, s, hk, hs, hfirst⟩ := exists_first_empty ss hemp
      refine ⟨hge, k, s, hk, hs, hfirst, ?_⟩
      have := validateLoop_error ss 0 false k s hk hs hfirst
      simp only [Nat.zero_add] at this
      simp only [config.validate, if_neg hnl, this]
    · right
      have hcmd : ∀ s ∈ ss, s.Command ≠ [] := by
        intro s hs hc
        exact hemp ⟨s, hs, hc⟩
      have hloop := validateLoop_ok ss 0 false hcmd
      simp only [Bool.false_or] at hloop
      by_cases hany : ss.any (fun s => s.IsActive) = true
      · right
        refine ⟨hge, hcmd, ?_, ?_⟩
        · simpa using hany
        · simp only [config.validate, if_neg hnl, hloop, hany]
          simp
      · left
        simp only [Bool.not_eq_true] at hany
        refine ⟨hge, hcmd, ?_, ?_⟩
        · intro s hs
          by_contra hc
          simp only [Bool.not_eq_false] at hc
          have : ss.any (fun s => s.IsActive) = true := by
            simp only [List.any_eq_true]
            exact ⟨s, hs, hc⟩
          rw [hany] at this
          exact absurd this (by decide)
        · simp only [config.validate, if_neg hnl, hloop, hany]
          simp

theorem validateLoop_present : ∀ (l : List (Option server)) (i : Nat) (ad b : Bool),
    validateLoop l i ad = some (Except.ok b) → ∃ ss : List server, l = ss.map some := by
  intro l
  induction l with
  | nil => intro i ad b _; exact ⟨[], rfl⟩
  | cons e es ih =>
    intro i ad b h
    cases e with
    | none => simp [validateLoop] at h
    | some s =>
      simp only [validateLoop] at h
      by_cases hc : s.Command.length = 0
      · rw [if_pos hc] at h
        simp at h
      · rw [if_neg hc] at h
        obtain ⟨ss, hss⟩ := ih _ _ _ h
        exact ⟨s :: ss, by simp [hss]⟩

/-- A configuration that `validate` accepts has no nil entry: `validate` has
read the command of every entry. -/
theorem validate_ok_present (c : config) (h : c.validate = some (Except.ok ())) :
    ∃ ss : List server, c.Servers = ss.map some := by
  unfold config.validate at h
  by_cases hlen : c.Servers.length < 2
  · rw [if_pos hlen] at h
    simp at h
  · rw [if_neg hlen] at h
    cases hv : validateLoop c.Servers 0 false with
    | none => simp [hv] at h
    | some r =>
      cases r with
      | error e => simp [hv] at h
      | ok b => exact validateLoop_present c.Servers 0 false b hv

/-- C13 as stated fails. Two links, both with a command and both seeded
active: the number of seeded links is 2, and `validate` accepts. -/
theorem validate_accepts_two_seeded_active :
    twoSeededActive.Servers = twoSeededActiveServers.map some ∧
    2 ≤ twoSeededActiveServers.length ∧
    (∀ s ∈ twoSeededActiveServers, s.Command ≠ []) ∧
    twoSeededActiveServers.countP (fun s => s.IsActive) = 2 ∧
    twoSeededActive.validate = some (Except.ok ()) := by
  refine ⟨rfl, by decide, by decide, by decide, rfl⟩

/-- C13, amended. `validate` accepts a configuration only if at least one
link is seeded as active: for every configuration with at least 2 links
`ss`, all with a non-empty command, it returns the error "active wan is not
defined" when no server is seeded active, and accepts when one or more
are. -/
theorem validate_requires_some_active (c : config) (ss : List server)
    (hss : c.Servers = ss.map some)
    (hlen : 2 ≤ ss.length) (hcmd : ∀ s ∈ ss, s.Command ≠ []) :
    (ss.countP (fun s => s.IsActive) = 0 →
      c.validate = some (Except.error validateError.activeNotDefined)) ∧
    (1 ≤ ss.countP (fun s => s.IsActive) → c.validate = some (Except.ok ())) ∧
    (c.validate = some (Except.ok ()) ↔ 1 ≤ ss.countP (fun s => s.IsActive)) := by
  have hzero : ss.countP (fun s => s.IsActive) = 0 ↔
      ∀ s ∈ ss, s.IsActive = false := by
    rw [List.countP_eq_zero]
    simp
  have hpos : 1 ≤ ss.countP (fun s => s.IsActive) ↔
      ∃ s ∈ ss, s.IsActive = true := by
    constructor
    · intro h
      by_contra hc
      have : ss.countP (fun s => s.IsActive) = 0 := by
        rw [hzero]
        intro s hs
        by_contra hs'
        simp only [Bool.not_eq_false] at hs'
        exact hc ⟨s, hs, hs'⟩
      omega
    · rintro ⟨s, hs, hact⟩
      by_contra hc
      have h0 : ss.countP (fun s => s.IsActive) = 0 := by omega
      have := hzero.mp h0 s hs
      rw [hact] at this
      exact absurd this (by decide)
  rcases validate_cases c ss hss with ⟨h, _⟩ | ⟨_, k, s, hk, hs, _, _⟩ | ⟨_, _, hnone, hv⟩ |
      ⟨_, _, hsome, hv⟩
  · omega
  · exact absurd hs (hcmd s (List.getElem?_mem hk))
  · have h0 := hzero.mpr hnone
    refine ⟨fun _ => hv, fun h1 => by omega, ?_⟩
    rw [hv]
    constructor
    · intro h
      exact absurd h (by simp)
    · intro h1
      omega
  · have h1 := hpos.mpr hsome
    refine ⟨fun h0 => by omega, fun _ => hv, ?_⟩
    rw [hv]
    exact ⟨fun _ => h1, fun _ => rfl⟩

/-- C13, amended, on the configuration with two seeded links: it has 2
links, all with a command, and is accepted. -/
theorem validate_requires_some_active_witness :
    2 ≤ twoSeededActiveServers.length ∧
    (twoSeededActive.validate = some (Except.ok ()) ↔
      1 ≤ twoSeededActiveServers.countP (fun s => s.IsActive)) :=
  ⟨by decide, (validate_requires_some_active twoSeededActive twoSeededActiveServers rfl
    (by decide) (by decide)).2.2⟩

/-- C16: the code on a configuration with a null entry. The list has 2
entries, the second is a link with an empty command, and `validate` returns
no error: it panics on the nil first entry. -/
theorem validate_panics_on_null_entry :
    2 ≤ nullEntryConfig.Servers.length ∧
    nullEntryConfig.Servers[1]? =
      some (some { WsURL := "lte:8080", IsActive := true, Command := [] }) ∧
    nullEntryConfig.validate = none ∧
    (∀ e, nullEntryConfig.validate ≠ some (Except.error e)) := by
  refine ⟨by decide, rfl, rfl, ?_⟩
  intro e h
  have h2 : nullEntryConfig.validate = none := rfl
  rw [h2] at h
  exact absurd h (by simp)

/-- On a configuration whose entries are all present, `ss` being the servers
they point at, `validate` returns, and returns an error exactly when there
are fewer than 2 links, or some link has an empty command, or no link is
seeded as active; the error is "command is not defined for wan #n" exactly
when there are at least 2 links and `n` is the 1-based index of the first
link whose command is empty. -/
theorem validate_error_iff_of_present (c : config) (ss : List server)
    (hss : c.Servers = ss.map some) :
    (c.validate ≠ none) ∧
    ((∃ e, c.validate = some (Except.error e)) ↔
      (ss.length < 2 ∨ (∃ s ∈ ss, s.Command = []) ∨
        (∀ s ∈ ss, s.IsActive = false))) ∧
    (∀ (n : Nat), c.validate = some (Except.error (validateError.commandNotDefined n)) ↔
      (2 ≤ ss.length ∧ ∃ (k : Nat) (s : server), n = k + 1 ∧
        ss[k]? = some s ∧ s.Command = [] ∧
        ∀ (j : Nat) (t : server), j < k → ss[j]? = some t → t.Command ≠ [])) := by
  rcases validate_cases c ss hss with ⟨hlen, hv⟩ | ⟨hlen, k, s, hk, hs, hfirst, hv⟩ |
      ⟨hlen, hcmd, hnone, hv⟩ | ⟨hlen, hcmd, hsome, hv⟩
  · refine ⟨by rw [hv]; simp, ⟨fun _ => Or.inl hlen, fun _ => ⟨_, hv⟩⟩, ?_⟩
    intro n
    rw [hv]
    constructor
    · intro h
      simp at h
    · rintro ⟨h2, _⟩
      omega
  · refine ⟨by rw [hv]; simp,
      ⟨fun _ => Or.inr (Or.inl ⟨s, List.getElem?_mem hk, hs⟩), fun _ => ⟨_, hv⟩⟩, ?_⟩
    intro n
    rw [hv]
    constructor
    · intro h
      simp only [Option.some.injEq, Except.error.injEq,
        validateError.commandNotDefined.injEq] at h
      exact ⟨hlen, k, s, h.symm, hk, hs, hfirst⟩
    · rintro ⟨_, k', s', hn, hk', hs', hfirst'⟩
      have hkk : k = k' := by
        rcases Nat.lt_trichotomy k k' with h | h | h
        · exact absurd hs (hfirst' k s h hk)
        · exact h
        · exact absurd hs' (hfirst k' s' h hk')
      rw [hn, hkk]
  · refine ⟨by rw [hv]; simp,
      ⟨fun _ => Or.inr (Or.inr hnone), fun _ => ⟨_, hv⟩⟩, ?_⟩
    intro n
    rw [hv]
    constructor
    · intro h
      simp at h
    · rintro ⟨_, k', s', _, hk', hs', _⟩
      exact absurd hs' (hcmd s' (List.getElem?_mem hk'))
  · refine ⟨by rw [hv]; simp, ?_, ?_⟩
    · constructor
      · rintro ⟨e, he⟩
        rw [hv] at he
        simp at he
      · rintro (h | ⟨s, hs, hc⟩ | h)
        · omega
        · exact absurd hc (hcmd s hs)
        · obtain ⟨s, hs, hact⟩ := hsome
          rw [h s hs] at hact
          exact absurd hact (by decide)
    · intro n
      rw [hv]
      constructor
      · intro h
        simp at h
      · rintro ⟨_, k', s', _, hk', hs', _⟩
        exact absurd hs' (hcmd s' (List.getElem?_mem hk'))

/-- On three uplinks of which the second and the third have no command,
`validate` names link 2. -/
theorem validate_missingCommands :
    missingCommands.validate = some (Except.error (validateError.commandNotDefined 2)) :=
  ((validate_error_iff_of_present missingCommands missingCommandsServers rfl).2.2 2).mpr
    ⟨by decide, 1, { WsURL := "lte:8080", IsActive := true, Command := [] }, rfl, rfl, rfl,
      fun j t hj ht => by
        have hj0 : j = 0 := by omega
        subst hj0
        simp only [missingCommandsServers, List.getElem?_cons_zero,
          Option.some.injEq] at ht
        subst ht
        simp [mkServer]⟩

/-! ## Construction of the manager -/

/-- On a list of entries that are all present the loop of `newWanManager`
does not panic and builds one link per server, the link at position `k`
from the server at position `k`. -/
theorem newWanManagerLoop_present : ∀ (ss : List server) (i : Nat),
    ∃ l : List wanWrap, newWanManagerLoop (ss.map some) i = some l ∧
      l.length = ss.length ∧
      ∀ (k : Nat), l[k]? =
        (ss[k]?).map (fun s =>
          { wan := newWan (((i + k : Nat) : Int) + 1), active := s.IsActive,
            command := s.Command }) := by
  intro ss
  induction ss with
  | nil => intro i; exact ⟨[], rfl, rfl, fun k => by simp⟩
  | cons x xs ih =>
    intro i
    obtain ⟨l, hl, hlen, hget⟩ := ih (i + 1)
    refine ⟨{ wan := newWan ((i : Int) + 1), active := x.IsActive, command := x.Command } :: l,
      ?_, by simp [hlen], ?_⟩
    · simp only [List.map_cons, newWanManagerLoop, hl, Option.map_some']
    · intro k
      cases k with
      | zero => simp
      | succ k =>
        simp only [List.getElem?_cons_succ, hget]
        have : i + 1 + k = i + (k + 1) := by omega
        rw [this]

theorem newWanManager_present (c : config) (ss : List server)
    (hss : c.Servers = ss.map some) :
    ∃ wm : wanManager, newWanManager c = some wm ∧ wm.wans.length = ss.length ∧
      ∀ (k : Nat), wm.wans[k]? =
        (ss[k]?).map (fun s =>
          { wan := newWan ((k : Int) + 1), active := s.IsActive, command := s.Command }) := by
  obtain ⟨l, hl, hlen, hget⟩ := newWanManagerLoop_present ss 0
  refine ⟨{ wans := l }, ?_, hlen, ?_⟩
  · simp only [newWanManager, hss, hl, Option.map_some']
  · intro k
    simp only []
    rw [hget]
    simp

theorem countP_of_onlyActive : ∀ (l : List wanWrap) (i : Nat), i < l.length →
    (∀ (j : Nat) (v : wanWrap), l[j]? = some v → (v.active = true ↔ j = i)) →
    l.countP (fun w => w.active) = 1 := by
  intro l
  induction l with
  | nil => intro i hi; simp at hi
  | cons x xs ih =>
    intro i hi h
    cases i with
    | zero =>
      have hx : x.active = true := (h 0 x (by simp)).mpr rfl
      have hxs : xs.countP (fun w => w.active) = 0 := by
        rw [List.countP_eq_zero]
        intro v hv
        obtain ⟨j, hj⟩ := List.getElem?_of_mem hv
        have := h (j + 1) v (by simpa using hj)
        simp only [Bool.not_eq_true]
        by_contra hc
        simp only [Bool.not_eq_false] at hc
        have := this.mp hc
        omega
      simp [List.countP_cons, hx, hxs]
    | succ i =>
      have hx : x.active = false := by
        by_contra hc
        simp only [Bool.not_eq_false] at hc
        have := (h 0 x (by simp)).mp hc
        omega
      have := ih i (by simpa using hi) (fun j v hv => by
        have := h (j + 1) v (by simpa using hv)
        rw [this]
        omega)
      simp [List.countP_cons, hx, this]

/-- C14. For every configuration, its entries all present and pointing at
the servers `ss`, in which exactly one server, at 0-based position `i`, is
seeded active, `newWanManager` returns a manager that has as many links as
there are servers and exactly one of them flagged active: the link built
from server `i`, with priority `i + 1`, in its initial health state and with
the command of server `i`. -/
theorem newWanManager_one_active (c : config) (ss : List server)
    (hss : c.Servers = ss.map some) (i : Nat) (s : server)
    (hi : ss[i]? = some s) (hact : s.IsActive = true)
    (hothers : ∀ (j : Nat) (t : server), j ≠ i → ss[j]? = some t →
      t.IsActive = false) :
    ∃ wm : wanManager, newWanManager c = some wm ∧
      wm.wans.length = ss.length ∧
      wm.wans[i]? =
        some { wan := { pri := (i : Int) + 1, state := wanState.stateInit }, active := true,
               command := s.Command } ∧
      onlyActive wm i ∧
      activeCount wm = 1 ∧
      getActiveWan wm =
        some (i, { wan := { pri := (i : Int) + 1, state := wanState.stateInit },
                   active := true, command := s.Command }) := by
  obtain ⟨wm, hwm, hlen, hget⟩ := newWanManager_present c ss hss
  have hwi : wm.wans[i]? =
      some { wan := { pri := (i : Int) + 1, state := wanState.stateInit }, active := true,
             command := s.Command } := by
    rw [hget, hi]
    simp [newWan, hact]
  have honly : onlyActive wm i := by
    intro j v hv
    rw [hget] at hv
    cases hj : ss[j]? with
    | none => simp [hj] at hv
    | some t =>
      rw [hj] at hv
      simp only [Option.map_some', Option.some.injEq] at hv
      subst hv
      simp only
      constructor
      · intro ht
        by_contra hne
        have := hothers j t hne hj
        rw [ht] at this
        exact absurd this (by decide)
      · intro hji
        subst hji
        rw [hi] at hj
        simp only [Option.some.injEq] at hj
        subst hj
        exact hact
  have hilt : i < wm.wans.length := by
    by_contra hc
    rw [List.getElem?_eq_none (by omega)] at hwi
    simp at hwi
  refine ⟨wm, hwm, hlen, hwi, honly, countP_of_onlyActive _ i hilt honly, ?_⟩
  refine firstWan_of_first hwi rfl ?_
  intro j v hj hv
  by_contra hc
  simp only [Bool.not_eq_false] at hc
  have := (honly j v hv).mp hc
  omega

/-- C14 on three uplinks with the second seeded active: link 2 is the only
active link. -/
theorem newWanManager_one_active_witness :
    secondSeededActive.Servers = secondSeededActiveServers.map some ∧
    secondSeededActiveServers.length = 3 ∧
    ∃ wm : wanManager, newWanManager secondSeededActive = some wm ∧
      onlyActive wm 1 ∧ activeCount wm = 1 :=
  match newWanManager_one_active secondSeededActive secondSeededActiveServers rfl 1
    (mkServer "lte:8080" true) rfl rfl
    (fun j t hne ht => by
      match j, hne, ht with
      | 0, _, ht =>
        simp only [secondSeededActiveServers, List.getElem?_cons_zero,
          Option.some.injEq] at ht
        subst ht
        rfl
      | 1, hne, _ => exact absurd rfl hne
      | 2, _, ht =>
        simp only [secondSeededActiveServers, List.getElem?_cons_succ,
          List.getElem?_cons_zero, Option.some.injEq] at ht
        subst ht
        rfl
      | n + 3, _, ht =>
        simp [secondSeededActiveServers] at ht) with
  | ⟨wm, h1, _, _, h4, h5, _⟩ => ⟨rfl, rfl, wm, h1, h4, h5⟩

/-! ## Priorities are assigned once and never change -/

theorem setActive_map_wan : ∀ (l : List wanWrap) (i : Nat) (b : Bool),
    (setActive l i b).map (fun w => (w.wan, w.command)) =
      l.map (fun w => (w.wan, w.command)) := by
  intro l
  induction l with
  | nil => intro i b; simp [setActive]
  | cons x xs ih =>
    intro i b
    cases i with
    | zero => simp [setActive]
    | succ i => simp [setActive, ih]

theorem deactivate_map_wan (wm : wanManager) :
    (deactivate wm).wans.map (fun w => (w.wan, w.command)) =
      wm.wans.map (fun w => (w.wan, w.command)) := by
  unfold deactivate
  cases h : getActiveWan wm with
  | none => rfl
  | some r =>
    obtain ⟨a, x⟩ := r
    exact setActive_map_wan _ _ _

theorem switchActiveWan_map_wan (wm : wanManager) (procOk : Bool) :
    (switchActiveWan wm procOk).wm.wans.map (fun w => (w.wan, w.command)) =
      wm.wans.map (fun w => (w.wan, w.command)) := by
  cases hr : replacement (deactivate wm) with
  | none => rw [switchActiveWan_none procOk hr]; exact deactivate_map_wan wm
  | some r =>
    obtain ⟨i, w⟩ := r
    cases he : execute w.command procOk with
    | none => rw [switchActiveWan_panicked hr he]; exact deactivate_map_wan wm
    | some b =>
      cases b
      · rw [switchActiveWan_failed hr he]; exact deactivate_map_wan wm
      · rw [switchActiveWan_switched hr he]
        simp only []
        rw [setActive_map_wan]
        exact deactivate_map_wan wm

theorem listen_map_wan (wm : wanManager) (e : wanEvent) (procOk : Bool) :
    (listen wm e procOk).wm.wans.map (fun w => (w.wan, w.command)) =
      wm.wans.map (fun w => (w.wan, w.command)) := by
  rcases listen_cases wm e procOk with hl | hl
  · rw [hl]; rfl
  · rw [hl]; exact switchActiveWan_map_wan wm procOk

/-- C15. For every configuration, its entries all present and pointing at
the servers `ss`, `newWanManager` returns a manager and gives the k-th
configured server (1-based) the priority k: the manager has one link per
server, the link at 0-based position `k` has priority `k + 1`, so the
priorities are pairwise distinct and strictly increasing along the list. No
call of `switchActiveWan` and no iteration of `listen` changes the list of
links apart from the active flags: the links, their priorities, health
states and commands stay in place; and no iteration of a monitor changes the
priority of its link. -/
theorem newWanManager_priorities (c : config) (ss : List server)
    (hss : c.Servers = ss.map some) :
    (∃ wm : wanManager, newWanManager c = some wm ∧
      wm.wans.length = ss.length ∧
      (∀ (k : Nat) (s : server), ss[k]? = some s →
        ∃ w, wm.wans[k]? = some w ∧ w.wan.pri = (k : Int) + 1 ∧
          w.command = s.Command) ∧
      priorityOrder wm ∧
      ascending wm ∧
      (∀ (i j : Nat) (u v : wanWrap), wm.wans[i]? = some u →
        wm.wans[j]? = some v → u.wan.pri = v.wan.pri → i = j)) ∧
    (∀ (wm : wanManager) (procOk : Bool),
      (switchActiveWan wm procOk).wm.wans.map (fun w => (w.wan, w.command)) =
        wm.wans.map (fun w => (w.wan, w.command))) ∧
    (∀ (wm : wanManager) (e : wanEvent) (procOk : Bool),
      (listen wm e procOk).wm.wans.map (fun w => (w.wan, w.command)) =
        wm.wans.map (fun w => (w.wan, w.command))) ∧
    (∀ (w : wan) (i : monitorInput), (monitor w i).1.pri = w.pri) := by
  obtain ⟨wm, hwm, hlen, hget⟩ := newWanManager_present c ss hss
  have hord : priorityOrder wm := by
    intro k w hw
    rw [hget] at hw
    cases hk : ss[k]? with
    | none => simp [hk] at hw
    | some s =>
      rw [hk] at hw
      simp only [Option.map_some', Option.some.injEq] at hw
      subst hw
      rfl
  refine ⟨⟨wm, hwm, hlen, ?_, hord, ascending_of_priorityOrder hord, ?_⟩,
    switchActiveWan_map_wan, listen_map_wan, ?_⟩
  · intro k s hk
    refine ⟨{ wan := newWan ((k : Int) + 1), active := s.IsActive, command := s.Command },
      ?_, rfl, rfl⟩
    rw [hget, hk]
    rfl
  · intro i j u v hu hv huv
    exact (ascending_eq (ascending_of_priorityOrder hord) hu hv).mp huv
  · intro w i
    obtain ⟨pri, st⟩ := w
    cases i with
    | conn ev => cases ev <;> cases st <;> simp [monitor, wan.is, wan.set]
    | minUptimeElapsed => cases st <;> simp [monitor, wan.is, wan.set]

/-- C15 on three uplinks: the manager is built and its third link has
priority 3. -/
theorem newWanManager_priorities_witness :
    secondSeededActive.Servers = secondSeededActiveServers.map some ∧
    ∃ wm : wanManager, newWanManager secondSeededActive = some wm ∧
      ∃ w, wm.wans[2]? = some w ∧ w.wan.pri = 3 ∧
        w.command = (mkServer "sat:8080" false).Command :=
  match (newWanManager_priorities secondSeededActive secondSeededActiveServers rfl).1 with
  | ⟨wm, h1, _, h3, _⟩ => ⟨rfl, wm, h1, h3 2 (mkServer "sat:8080" false) rfl⟩

/-! ## Closing the heartbeat connection -/

/-- C17 as stated fails. On a client with no connection `close` does not
complete: the call of `Close` on the nil handle panics. So a second close
right after a first does not complete either. -/
theorem close_without_connection_panics :
    disconnectedClient.conn = none ∧
    disconnectedClient.close = none ∧
    connectedClient.close =
      some { ws := disconnectedClient, sent := [connEventType.eventConnDown] } ∧
    (connectedClient.close.bind (fun o => o.ws.close)) = none := by
  refine ⟨rfl, rfl, rfl, rfl⟩

/-- C17, amended. `close` on a client that holds a connection completes: it
leaves the handle absent and the url as it was, and sends exactly one
ConnectivityDown event; the client it leaves does not depend on which
connection was held. -/
theorem close_of_connected (ws : wsclient) (h : Nat) (hc : ws.conn = some h) :
    ws.close =
      some { ws := { url := ws.url, conn := none },
             sent := [connEventType.eventConnDown] } ∧
    (∀ (o : closeOutcome), ws.close = some o →
      o.ws.conn = none ∧ o.ws.url = ws.url ∧ o.sent = [connEventType.eventConnDown]) ∧
    (∀ (h2 : Nat), wsclient.close { url := ws.url, conn := some h2 } = ws.close) := by
  obtain ⟨url, conn⟩ := ws
  simp only at hc
  subst hc
  refine ⟨rfl, ?_, fun _ => rfl⟩
  intro o ho
  simp only [wsclient.close, Option.some.injEq] at ho
  subst ho
  exact ⟨rfl, rfl, rfl⟩

/-- C17, amended, on a client holding connection 7: close completes, the
handle is absent afterwards and one ConnectivityDown is sent. -/
theorem close_of_connected_witness :
    connectedClient.conn = some 7 ∧
    connectedClient.close =
      some { ws := { url := connectedClient.url, conn := none },
             sent := [connEventType.eventConnDown] } :=
  ⟨rfl, (close_of_connected connectedClient 7 rfl).1⟩

/-! ## The link activated by a Stable event -/

theorem switchActiveWan_status_switched {wm : wanManager} {procOk : Bool} {i : Nat}
    {w : wanWrap} (hr : replacement (deactivate wm) = some (i, w))
    (hok : (switchActiveWan wm procOk).status = switchStatus.switched) :
    execute w.command procOk = some true := by
  cases he : execute w.command procOk with
  | none =>
    rw [switchActiveWan_panicked hr he] at hok
    simp at hok
  | some b =>
    cases b
    · rw [switchActiveWan_failed hr he] at hok
      simp at hok
    · rfl

/-- C19. Whenever a Stable event for priority P, with links in ascending
priority order, link P idle and Stable and P strictly more preferred than the
active link (or no link active), leads to a successful switch, the link that
becomes active is Stable and has a priority less than or equal to P: it is
the most preferred non-active Stable link of the state before the event, its
own command is the one run, and it is not the link just deactivated. -/
theorem listen_stable_switch_target (wm : wanManager) (procOk : Bool)
    (p : Nat) (w : wanWrap) (o : switchOutcome)
    (hord : ascending wm)
    (hp : wm.wans[p]? = some w)
    (hidle : w.active = false) (hst : w.wan.state = wanState.stateStable)
    (hact : getActiveWan wm = none ∨
      ∃ a x, getActiveWan wm = some (a, x) ∧ w.wan.pri < x.wan.pri)
    (hcall : (listen wm { wanPri := w.wan.pri, event := wanEventType.eventWanStable }
      procOk).call = some o)
    (hok : o.status = switchStatus.switched) :
    ∃ (s : Nat) (v : wanWrap), o.selected = some (s, v) ∧
      v.wan.state = wanState.stateStable ∧ v.wan.pri ≤ w.wan.pri ∧
      getStableIdleWan wm = some (s, v) ∧
      (∀ u ∈ wm.wans, u.active = false → u.wan.state = wanState.stateStable →
        v.wan.pri ≤ u.wan.pri) ∧
      (∀ a x, getActiveWan wm = some (a, x) → s ≠ a) ∧
      o.executed = some v.command ∧
      getActiveWan (listen wm { wanPri := w.wan.pri, event := wanEventType.eventWanStable }
        procOk).wm = some (s, { v with active := true }) ∧
      (activeCount wm ≤ 1 →
        onlyActive (listen wm { wanPri := w.wan.pri, event := wanEventType.eventWanStable }
          procOk).wm s) := by
  have hl : listen wm { wanPri := w.wan.pri, event := wanEventType.eventWanStable } procOk =
      listenOutcome.switch wm procOk := by
    rcases listen_cases wm { wanPri := w.wan.pri, event := wanEventType.eventWanStable }
      procOk with h | h
    · rw [h] at hcall
      simp [listenOutcome.skip] at hcall
    · exact h
  rw [hl] at hcall ⊢
  simp only [listenOutcome.switch, Option.some.injEq] at hcall ⊢
  subst hcall
  have hpw : (fun u : wanWrap => !u.active && u.wan.isStable) w = true := by
    simp [hidle, wan.isStable, wan.is, hst]
  obtain ⟨r, hr⟩ :=
    firstWan_isSome_of_mem (p := fun u : wanWrap => !u.active && u.wan.isStable)
      (List.getElem?_mem hp) hpw
  obtain ⟨s, v⟩ := r
  have hgs : getStableIdleWan wm = some (s, v) := hr
  obtain ⟨hv, hvp, hfirst⟩ := firstWan_some hr
  obtain ⟨_, _, hvst⟩ := getStableIdleWan_some hgs
  have hle : ∀ (k : Nat) (u : wanWrap), wm.wans[k]? = some u → u.active = false →
      u.wan.state = wanState.stateStable → s ≤ k ∧ v.wan.pri ≤ u.wan.pri := by
    intro k u hk hui hus
    have hsk : s ≤ k := by
      by_contra hc
      have := hfirst k u (by omega) hk
      simp [hui, wan.isStable, wan.is, hus] at this
    refine ⟨hsk, ?_⟩
    rcases Nat.eq_or_lt_of_le hsk with heq | hlt
    · subst heq
      rw [hv] at hk
      simp only [Option.some.injEq] at hk
      rw [hk]
    · have := hord s k v u hlt hv hk
      omega
  have hsp := hle p w hp hidle hst
  have hafter : ∀ a x, getActiveWan wm = some (a, x) → s < a := by
    intro a x hg
    rcases hact with hn | ⟨a', x', hg', hx⟩
    · rw [hn] at hg
      exact absurd hg (by simp)
    · rw [hg] at hg'
      simp only [Option.some.injEq, Prod.mk.injEq] at hg'
      obtain ⟨rfl, rfl⟩ := hg'
      obtain ⟨hxa, _, _⟩ := firstWan_some hg
      have := (ascending_lt hord hp hxa).mp hx
      omega
  have hrep : replacement (deactivate wm) = some (s, v) := by
    unfold replacement
    rw [getStableIdleWan_deactivate hgs hafter]
  have hexec := switchActiveWan_status_switched hrep hok
  obtain ⟨h1, h2, _, h4, _, h6⟩ := switchActiveWan_to_stable hgs hafter hexec
  refine ⟨s, v, h1, hvst, hsp.2, hgs, ?_, ?_, h2, h4, h6⟩
  · intro u hu hui hus
    obtain ⟨k, hk⟩ := List.getElem?_of_mem hu
    exact (hle k u hk hui hus).2
  · intro a x hg
    have := hafter a x hg
    omega

/-- C19 on "links 1 and 2 idle and Stable, no active link, Stable event for
priority 2": the switch succeeds and the link activated is link 1. -/
theorem listen_stable_switch_target_witness :
    ∃ (s : Nat) (v : wanWrap),
      (switchActiveWan twoStableNoActive true).selected = some (s, v) ∧
      v.wan.state = wanState.stateStable ∧ v.wan.pri ≤ 2 :=
  match listen_stable_switch_target twoStableNoActive true 1
      (mkWan 2 wanState.stateStable false) (switchActiveWan twoStableNoActive true)
      (ascending_of_priorityOrder (priorityOrder_of_check (by decide)))
      rfl rfl rfl (Or.inl rfl) rfl rfl with
  | ⟨s, v, h1, h2, h3, _⟩ => ⟨s, v, h1, h2, h3⟩

/-! ## Re-selection of the link just deactivated -/

theorem setActive_restore : ∀ (l : List wanWrap) (a : Nat) (x : wanWrap),
    l[a]? = some x → x.active = true →
    setActive (setActive l a false) a true = l := by
  intro l
  induction l with
  | nil => intro a x h; simp at h
  | cons y ys ih =>
    intro a x h hx
    cases a with
    | zero =>
      simp only [List.getElem?_cons_zero, Option.some.injEq] at h
      subst h
      obtain ⟨wn, act, cmd⟩ := y
      simp only at hx
      subst hx
      simp [setActive]
    | succ a =>
      simp only [List.getElem?_cons_succ] at h
      simp [setActive, ih a x h hx]

/-- C20. `switchActiveWan` treats the link it has just deactivated as an idle
candidate: when the active link A is Stable and no non-active link before A
in configured order is Stable, a call whose command succeeds selects A, runs
the command of A again, and leaves the manager exactly as it was, A active. -/
theorem switchActiveWan_reselects_active (wm : wanManager) (procOk : Bool)
    (a : Nat) (x : wanWrap)
    (ha : getActiveWan wm = some (a, x))
    (hst : x.wan.state = wanState.stateStable)
    (hbefore : ∀ (j : Nat) (v : wanWrap), j < a → wm.wans[j]? = some v →
      v.active = false → v.wan.state ≠ wanState.stateStable)
    (hexec : execute x.command procOk = some true) :
    (switchActiveWan wm procOk).selected = some (a, { x with active := false }) ∧
    (switchActiveWan wm procOk).executed = some x.command ∧
    (switchActiveWan wm procOk).status = switchStatus.switched ∧
    (switchActiveWan wm procOk).wm = wm ∧
    getActiveWan (switchActiveWan wm procOk).wm = some (a, x) := by
  obtain ⟨hx, hxa, hfirst⟩ := firstWan_some ha
  have hd : deactivate wm = { wans := setActive wm.wans a false } := by
    unfold deactivate
    rw [ha]
  have hgs : getStableIdleWan (deactivate wm) = some (a, { x with active := false }) := by
    rw [hd]
    refine firstWan_of_first ?_ (by simp [wan.isStable, wan.is, hst]) ?_
    · simp only []
      rw [setActive_getElem?_self, hx]
      rfl
    · intro j v hj hv
      simp only [] at hv
      rw [setActive_getElem?_ne _ _ _ _ (by omega)] at hv
      have hvi : v.active = false := hfirst j v hj hv
      have hvs := hbefore j v hj hv hvi
      simp [hvi, wan.isStable, wan.is, hvs]
  have hrep : replacement (deactivate wm) = some (a, { x with active := false }) := by
    unfold replacement
    rw [hgs]
  have hsw := switchActiveWan_switched (w := { x with active := false }) hrep hexec
  have hwm : (switchActiveWan wm procOk).wm = wm := by
    rw [hsw, hd]
    simp only []
    rw [setActive_restore wm.wans a x hx hxa]
  refine ⟨by rw [hsw], by rw [hsw], by rw [hsw], hwm, ?_⟩
  rw [hwm]
  exact ha

/-- C20 on "link 1 idle and Alive, link 2 active and Stable, link 3 idle and
Stable": the call runs the command of link 2 again and changes nothing. -/
theorem switchActiveWan_reselects_active_witness :
    getActiveWan link1AliveLink2ActiveLink3Stable =
      some (1, mkWan 2 wanState.stateStable true) ∧
    (switchActiveWan link1AliveLink2ActiveLink3Stable true).executed =
      some (mkWan 2 wanState.stateStable true).command ∧
    (switchActiveWan link1AliveLink2ActiveLink3Stable true).wm =
      link1AliveLink2ActiveLink3Stable :=
  have h := switchActiveWan_reselects_active link1AliveLink2ActiveLink3Stable true 1
    (mkWan 2 wanState.stateStable true) rfl rfl
    (fun j v hj hv _ => by
      have hj0 : j = 0 := by omega
      subst hj0
      simp only [link1AliveLink2ActiveLink3Stable, List.getElem?_cons_zero,
        Option.some.injEq] at hv
      subst hv
      decide)
    rfl
  ⟨rfl, h.2.1, h.2.2.2.1⟩

end Rewansh
